import Mathlib

/-!
Shallow embedding of the `liste_rappel` watcher (Python) for checking the
natural-language specification against the code.

Source files embedded:
  * `liste_rappel/state.py`   — `EntryState`, `AlertState`, `State` and its
    methods, `load_state`, `save_state`.
  * `liste_rappel/watcher.py` — `Watcher._handle_entries` (rank selection and
    change classification), `Watcher._maybe_notify` (tier classification,
    cooldown gating, dispatch), `Watcher._run_once` (pagination loop),
    `Watcher.run` (outer loop with its `finally: save_state`).
  * `liste_rappel/notifier.py` — `DiscordNotifier.send` (the
    `response.raise_for_status()` check).
  * `liste_rappel/parser.py`  — `DATE_REGEX`, `_extract_date`,
    `_normalise_date` (embedded further below).

Modelling conventions:
  * Python `dict`s become association lists with insert-or-replace update
    (`updA`) and lookup (`getA`); insertion order is preserved as in CPython.
  * Timestamps (`datetime.utcnow()`, ISO strings in the state file) become
    `Int` seconds; `datetime.utcnow() - sent >= timedelta(minutes=m)` becomes
    `m * 60 ≤ now - sent`.
  * Python exceptions become an `Option DErr` component threaded through the
    results, carrying the partially mutated state, so that `try/finally`
    behaviour is observable.
  * `requests.post` is a parameter `post : String → Int` returning the HTTP
    status; `raise_for_status` raises exactly for statuses in `[400, 600)`.
  * `str.format` (message rendering) is a parameter `fmt`; no claim inspects
    rendered text.
  * `hashlib.sha256(...).hexdigest()` is a parameter `digest : γ → String`;
    equality of digests is what the code compares.
  * File writes (`save_state`) are recorded as a list of serialized
    `StateDoc` values, in order.
-/

/-- Association-list lookup, the model of Python `dict.get`. -/
def getA {κ α : Type} [DecidableEq κ] : List (κ × α) → κ → Option α
  | [], _ => none
  | (k', v) :: t, k => if k' = k then some v else getA t k

/-- Association-list insert-or-replace, the model of Python `dict.__setitem__`:
replaces in place when the key is present, appends otherwise (CPython keeps
insertion order). -/
def updA {κ α : Type} [DecidableEq κ] : List (κ × α) → κ → α → List (κ × α)
  | [], k, v => [(k, v)]
  | (k', v') :: t, k, v => if k' = k then (k, v) :: t else (k', v') :: updA t k v

/-- `parser.Entry` (parser.py): one candidate record produced in a pass. -/
structure Entry where
  label : String
  page : Int
  rank : Int
  target : String
  shift : Option String
  date : Option String
  raw : String
deriving DecidableEq, Repr

/-- `state.EntryState` (state.py): the persisted position for one
(list label, target) pair. -/
structure EntryState where
  rank : Int
  page : Int
  shift : Option String
  date : Option String
  raw : String
  updated_at : Int
deriving DecidableEq, Repr

/-- `state.AlertState` (state.py). -/
structure AlertState where
  sent_at : Int
deriving DecidableEq, Repr

/-- `state.State` (state.py): nested dict of entries plus the alert map. -/
structure State where
  entries : List (String × List (String × EntryState))
  alerts : List (String × AlertState)
deriving DecidableEq, Repr

/-- `State.best_previous` (state.py line 36):
`self.entries.get(label, {}).get(target)`. -/
def State.best_previous (s : State) (label target : String) : Option EntryState :=
  match getA s.entries label with
  | none => none
  | some m => getA m target

/-- `State.record_entry` (state.py lines 39-48): unconditionally overwrite the
(label, target) slot with the new entry, stamping `updated_at` with the current
time. -/
def State.record_entry (s : State) (e : Entry) (now : Int) : State :=
  let m := (getA s.entries e.label).getD []
  { s with
    entries := updA s.entries e.label (updA m e.target ⟨e.rank, e.page, e.shift, e.date, e.raw, now⟩) }

/-- `State.should_alert` (state.py lines 50-54): `True` when the key has no
alert record, or when `utcnow() - sent >= timedelta(minutes=cooldown_minutes)`. -/
def State.should_alert (s : State) (key : String) (cooldown_minutes : Int) (now : Int) : Bool :=
  match getA s.alerts key with
  | none => true
  | some a => cooldown_minutes * 60 ≤ now - a.sent_at

/-- `State.record_alert` (state.py lines 56-57). -/
def State.record_alert (s : State) (key : String) (now : Int) : State :=
  { s with alerts := updA s.alerts key ⟨now⟩ }

/-- One entry of the serialized state document: every field optional, the model
of `values.get(...)` on the parsed JSON object (absent key or JSON `null` both
read back as `none` for `shift`/`date`). -/
structure EntryJson where
  rank : Option Int
  page : Option Int
  shift : Option String
  date : Option String
  raw : Option String
  updated_at : Option Int
deriving DecidableEq, Repr

/-- One alert of the serialized state document. -/
structure AlertJson where
  sent_at : Option Int
deriving DecidableEq, Repr

/-- The parsed JSON state document (`{"entries": ..., "alerts": ...}`). -/
structure StateDoc where
  entries : List (String × List (String × EntryJson))
  alerts : List (String × AlertJson)
deriving DecidableEq, Repr

/-- What `load_state` finds on disk: no file, a file whose content fails JSON
decoding (`json.JSONDecodeError`), or a decoded document. -/
inductive StateFile where
  | missing
  | corrupted
  | valid (doc : StateDoc)
deriving DecidableEq, Repr

/-- Reading one entry object back (state.py lines 77-84): `rank` defaults to
9999, `page` to 9999, `raw` to `""`, `updated_at` to `datetime.utcnow()`. -/
def loadEntryJson (now : Int) (j : EntryJson) : EntryState :=
  ⟨j.rank.getD 9999, j.page.getD 9999, j.shift, j.date, j.raw.getD "", j.updated_at.getD now⟩

/-- `load_state` (state.py lines 60-90): missing file or corrupted JSON give an
empty `State`; otherwise the document is read back field by field with
defaults. -/
def load_state (f : StateFile) (now : Int) : State :=
  match f with
  | .missing => ⟨[], []⟩
  | .corrupted => ⟨[], []⟩
  | .valid doc =>
    ⟨doc.entries.map (fun lt => (lt.1, lt.2.map (fun tv => (tv.1, loadEntryJson now tv.2)))),
     doc.alerts.map (fun kv => (kv.1, ⟨kv.2.sent_at.getD now⟩))⟩

/-- `save_state` (state.py lines 93-108) as the document it serializes: every
field of every entry is written out (`entry.__dict__`). The
write-temp-then-rename mechanics are not modelled; a save is recorded as the
document value. -/
def save_state (s : State) : StateDoc :=
  ⟨s.entries.map (fun lt => (lt.1, lt.2.map (fun tv =>
      (tv.1, ⟨some tv.2.rank, some tv.2.page, tv.2.shift, tv.2.date, some tv.2.raw, some tv.2.updated_at⟩)))),
   s.alerts.map (fun kv => (kv.1, ⟨some kv.2.sent_at⟩))⟩

/-- The delivery failure `requests.raise_for_status` raises (notifier.py
lines 29-33), re-raised by `DiscordNotifier.send`. -/
inductive DErr where
  | httpError (status : Int)
deriving DecidableEq, Repr

/-- `response.raise_for_status()` inside `DiscordNotifier.send` (notifier.py
line 30): `requests` raises `HTTPError` exactly for statuses in `[400, 600)`. -/
def raiseForStatus (status : Int) : Except DErr Unit :=
  if 400 ≤ status ∧ status < 600 then .error (.httpError status) else .ok ()

/-- `config.WatchConfig` fields used by the embedded code (config.py). -/
structure WatchConfig where
  page_limit : Nat
  cooldown_minutes : Int
  top_threshold : Int
  warn_threshold : Int
deriving DecidableEq, Repr

/-- The three message templates of `config.DiscordConfig` (config.py); a
template that is the empty string is falsy in Python, so `if not template`
skips it. -/
structure DiscordConfigM where
  top_template : String
  warn_template : String
  update_template : String
deriving DecidableEq, Repr

/-- External collaborators of the dispatcher: the optional Discord
configuration (`self.notifier.enabled` is `config.discord is not None`), the
HTTP POST of the webhook returning a status code, and `str.format` message
rendering. -/
structure Env where
  discord : Option DiscordConfigM
  post : String → Int
  fmt : String → Entry → String

/-- The tier / template selection of `Watcher._maybe_notify` (watcher.py lines
139-149): `rank <= top_threshold` is "top", else `rank <= warn_threshold` is
"warn", else "update". -/
def tierTemplate (cfg : WatchConfig) (d : DiscordConfigM) (rank : Int) : String × String :=
  if rank ≤ cfg.top_threshold then ("top", d.top_template)
  else if rank ≤ cfg.warn_threshold then ("warn", d.warn_template)
  else ("update", d.update_template)

/-- Python `f"{x}"` on an `Optional[str]`: `None` renders as `"None"`. -/
def pyStr : Option String → String
  | none => "None"
  | some v => v

/-- The alert key of watcher.py line 155:
`f"{entry.label}|{entry.target}|{entry.date}|{entry.shift}|{threshold}"`. -/
def alertKey (e : Entry) (threshold : String) : String :=
  e.label ++ "|" ++ e.target ++ "|" ++ pyStr e.date ++ "|" ++ pyStr e.shift ++ "|" ++ threshold

/-- Observable outcome of a (partial) piece of a pass: the state as mutated so
far, the messages handed to `DiscordNotifier.send` (i.e. POSTed), the state
documents written by `save_state`, and the uncaught exception if one was
raised. -/
structure PassOut where
  state : State
  sends : List String
  saves : List StateDoc
  err : Option DErr
deriving DecidableEq, Repr

/-- `Watcher._maybe_notify` (watcher.py lines 136-171): skip when the notifier
is disabled, when the selected template is falsy, or when the cooldown
suppresses the key; otherwise render, POST, and only after a successful send
record the alert and persist the state. A failing POST raises out with the
state untouched. -/
def maybeNotify (cfg : WatchConfig) (env : Env) (now : Int) (s : State) (e : Entry)
    (_changeType : String) : PassOut :=
  match env.discord with
  | none => ⟨s, [], [], none⟩
  | some d =>
    let tt := tierTemplate cfg d e.rank
    if tt.2 = "" then ⟨s, [], [], none⟩
    else
      let key := alertKey e tt.1
      if ¬ s.should_alert key cfg.cooldown_minutes now then ⟨s, [], [], none⟩
      else
        let msg := env.fmt tt.2 e
        match raiseForStatus (env.post msg) with
        | .error er => ⟨s, [msg], [], some er⟩
        | .ok _ =>
          let s' := s.record_alert key now
          ⟨s', [msg], [save_state s'], none⟩

/-- The replacement test of the rank-selection fold (watcher.py line 109):
`entry.rank < previous.rank or (entry.rank == previous.rank and entry.page <
previous.page)`. -/
def better (e prev : Entry) : Bool :=
  (e.rank < prev.rank) || (e.rank == prev.rank && e.page < prev.page)

/-- One step of the rank-selection fold (watcher.py lines 106-110): look up
the current best for the entry's (label, target) key; replace it when there is
none yet or when the candidate is `better`. -/
def selectStep (best : List ((String × String) × Entry)) (e : Entry) :
    List ((String × String) × Entry) :=
  match getA best (e.label, e.target) with
  | none => updA best (e.label, e.target) e
  | some prev => if better e prev then updA best (e.label, e.target) e else best

/-- The rank-selection fold of `Watcher._handle_entries` (watcher.py lines
105-110): reduce all records of the pass to one best record per
(label, target) key. -/
def selectBest (entries : List Entry) : List ((String × String) × Entry) :=
  entries.foldl selectStep []

/-- The three-way classification of `Watcher._handle_entries`. -/
inductive Change where
  | new
  | changed
  | unchanged
deriving DecidableEq, Repr

/-- The change condition of watcher.py line 122: `entry.rank <
previous_state.rank or entry.page < previous_state.page or entry.shift !=
previous_state.shift or entry.date != previous_state.date`. -/
def changedCond (e : Entry) (p : EntryState) : Bool :=
  (e.rank < p.rank) || (e.page < p.page) || (e.shift != p.shift) || (e.date != p.date)

/-- The classification branch of `Watcher._handle_entries` (watcher.py lines
117-134): no previous state is "new", the change condition is "changed",
otherwise "unchanged". -/
def classify (e : Entry) (previous : Option EntryState) : Change :=
  match previous with
  | none => .new
  | some p => if changedCond e p then .changed else .unchanged

/-- The per-key loop of `Watcher._handle_entries` (watcher.py lines 112-134):
look up the previous state, overwrite it with the new entry, then dispatch on
the classification ("new" and "changed" notify, "unchanged" does not). An
exception from the dispatcher aborts the loop. -/
def handleLoop (cfg : WatchConfig) (env : Env) (now : Int) :
    State → List String → List StateDoc → List ((String × String) × Entry) → PassOut
  | s, sends, saves, [] => ⟨s, sends, saves, none⟩
  | s, sends, saves, ((label, target), e) :: rest =>
    let previous := s.best_previous label target
    let s1 := s.record_entry e now
    match classify e previous with
    | .new =>
      let out := maybeNotify cfg env now s1 e "new"
      match out.err with
      | some er => ⟨out.state, sends ++ out.sends, saves ++ out.saves, some er⟩
      | none => handleLoop cfg env now out.state (sends ++ out.sends) (saves ++ out.saves) rest
    | .changed =>
      let out := maybeNotify cfg env now s1 e "update"
      match out.err with
      | some er => ⟨out.state, sends ++ out.sends, saves ++ out.saves, some er⟩
      | none => handleLoop cfg env now out.state (sends ++ out.sends) (saves ++ out.saves) rest
    | .unchanged => handleLoop cfg env now s1 sends saves rest

/-- `Watcher._handle_entries` (watcher.py lines 104-134): rank selection
followed by the per-key loop. -/
def handleEntries (cfg : WatchConfig) (env : Env) (now : Int) (s : State)
    (entries : List Entry) : PassOut :=
  handleLoop cfg env now s [] [] (selectBest entries)

/-- Result of the pagination loop of `Watcher._run_once` for one list:
the pages actually fetched, the pages whose entries were parsed and kept, and
the concatenated entries. -/
structure PageResult where
  fetched : List Nat
  contributed : List Nat
  entries : List Entry
deriving DecidableEq, Repr

/-- The inner `while page < page_limit` loop of `Watcher._run_once`
(watcher.py lines 70-97), for one list. `fetchC` is the retrying
`session.fetch` returning page content, `digest` is
`hashlib.sha256(content).hexdigest()`, and `pe` is the composition
`parse_entries(extract_lines(content, ...), ...)` producing the page's
records. The fuel argument is `page_limit - page`, so the loop runs while
`page < page_limit`. A page whose digest is in the seen list breaks out of the
loop after the fetch, before parsing (so it is fetched but contributes no
records). -/
def pageLoop {γ : Type} (fetchC : Nat → γ) (digest : γ → String)
    (pe : Nat → γ → List Entry) : Nat → Nat → List String → PageResult
  | 0, _, _ => ⟨[], [], []⟩
  | fuel + 1, page, seen =>
    let c := fetchC page
    let h := digest c
    if seen ≠ [] ∧ h ∈ seen then ⟨[page], [], []⟩
    else
      let r := pageLoop fetchC digest pe fuel (page + 1) (seen ++ [h])
      ⟨page :: r.fetched, page :: r.contributed, pe page c ++ r.entries⟩

/-- The pagination of one list in one pass: pages from 0, fresh seen list
(`seen_pages` is a `defaultdict(list)` keyed by label, so a list's first page
in a pass sees an empty list). -/
def fetchList {γ : Type} (fetchC : Nat → γ) (digest : γ → String)
    (pe : Nat → γ → List Entry) (page_limit : Nat) : PageResult :=
  pageLoop fetchC digest pe page_limit 0 []

/-- `Watcher._run_once` after the fetch loop (watcher.py lines 101-102):
handle the collected entries, then `save_state` at end of pass — skipped if an
exception is propagating. -/
def runOnce (cfg : WatchConfig) (env : Env) (now : Int) (s : State)
    (entries : List Entry) : PassOut :=
  let out := handleEntries cfg env now s entries
  match out.err with
  | some _ => out
  | none => { out with saves := out.saves ++ [save_state out.state] }

/-- Observable outcome of `Watcher.run`: how many passes were started, the
state at exit, every state document written (including the `finally` flush),
and the exception propagating out of `run`, if any. -/
structure RunResult where
  passes : Nat
  finalState : State
  saves : List StateDoc
  err : Option DErr
deriving DecidableEq, Repr

/-- The `while True` body of `Watcher.run` (watcher.py lines 44-53): run a
pass; an exception stops the loop and propagates; otherwise stop after one
pass in `--once` mode, else sleep and loop. Fuel bounds the number of
iterations of the model (the real loop is unbounded in time, not in any other
resource). -/
def runLoop (doPass : Nat → State → PassOut) (once : Bool) :
    Nat → Nat → State → List StateDoc → Nat × State × List StateDoc × Option DErr
  | 0, k, s, acc => (k, s, acc, none)
  | fuel + 1, k, s, acc =>
    let out := doPass k s
    let acc' := acc ++ out.saves
    match out.err with
    | some e => (k + 1, out.state, acc', some e)
    | none =>
      if once then (k + 1, out.state, acc', none)
      else runLoop doPass once fuel (k + 1) out.state acc'

/-- `Watcher.run` (watcher.py lines 39-57): the loop wrapped in
`try ... finally: save_state(...)`, so the state is flushed on every exit
path, and any exception other than `KeyboardInterrupt` propagates after the
flush. -/
def run (doPass : Nat → State → PassOut) (once : Bool) (fuel : Nat) (s0 : State) : RunResult :=
  let r := runLoop doPass once fuel 0 s0 []
  ⟨r.1, r.2.1, r.2.2.1 ++ [save_state r.2.1], r.2.2.2⟩

/-! ### Association-list lemmas -/

theorem getA_updA_self {κ α : Type} [DecidableEq κ] (l : List (κ × α)) (k : κ) (v : α) :
    getA (updA l k v) k = some v := by
  induction l with
  | nil => simp [updA, getA]
  | cons hd t ih =>
    by_cases h : hd.1 = k
    · simp [updA, getA, h]
    · simp [updA, getA, h, ih]

theorem getA_updA_ne {κ α : Type} [DecidableEq κ] (l : List (κ × α)) (k k' : κ) (v : α)
    (h : k' ≠ k) : getA (updA l k v) k' = getA l k' := by
  have hkk : ¬ (k = k') := fun hh => h hh.symm
  induction l with
  | nil => simp only [updA, getA]; rw [if_neg hkk]
  | cons hd t ih =>
    by_cases hk : hd.1 = k
    · rcases hd with ⟨a, b⟩
      simp only at hk
      subst hk
      simp only [updA, if_pos rfl, getA]
      rw [if_neg hkk, if_neg hkk]
    · simp only [updA, if_neg hk, getA]
      by_cases hk' : hd.1 = k'
      · rw [if_pos hk', if_pos hk']
      · rw [if_neg hk', if_neg hk', ih]

theorem mem_updA {κ α : Type} [DecidableEq κ] {l : List (κ × α)} {k : κ} {v : α}
    {x : κ × α} : x ∈ updA l k v → x = (k, v) ∨ x ∈ l := by
  induction l with
  | nil =>
    intro h
    simp only [updA, List.mem_singleton] at h
    exact .inl h
  | cons hd t ih =>
    intro h
    by_cases hk : hd.1 = k
    · simp only [updA, if_pos hk, List.mem_cons] at h
      rcases h with h | h
      · exact .inl h
      · exact .inr (List.mem_cons_of_mem _ h)
    · simp only [updA, if_neg hk, List.mem_cons] at h
      rcases h with h | h
      · exact .inr (by simp [h])
      · rcases ih h with h' | h'
        · exact .inl h'
        · exact .inr (List.mem_cons_of_mem _ h')

theorem keys_updA_subset {κ α : Type} [DecidableEq κ] {l : List (κ × α)} {k : κ} {v : α}
    {x : κ} (h : x ∈ (updA l k v).map Prod.fst) : x = k ∨ x ∈ l.map Prod.fst := by
  rcases List.mem_map.mp h with ⟨p, hp, hx⟩
  rcases mem_updA hp with h' | h'
  · left; rw [← hx, h']
  · right; exact List.mem_map.mpr ⟨p, h', hx⟩

theorem keys_updA_nodup {κ α : Type} [DecidableEq κ] {l : List (κ × α)} (k : κ) (v : α)
    (h : (l.map Prod.fst).Nodup) : ((updA l k v).map Prod.fst).Nodup := by
  induction l with
  | nil => simp [updA]
  | cons hd t ih =>
    rcases List.nodup_cons.mp h with ⟨hhd, ht⟩
    by_cases hk : hd.1 = k
    · simp only [updA, if_pos hk, List.map_cons]
      exact List.nodup_cons.mpr ⟨by simpa [hk] using hhd, ht⟩
    · simp only [updA, if_neg hk, List.map_cons]
      refine List.nodup_cons.mpr ⟨?_, ih ht⟩
      intro hmem
      rcases keys_updA_subset hmem with h' | h'
      · exact hk h'
      · exact hhd h'

/-! ### `State.record_entry` lemmas -/

theorem record_entry_alerts (s : State) (e : Entry) (now : Int) :
    (s.record_entry e now).alerts = s.alerts := rfl

theorem best_previous_record_self (s : State) (e : Entry) (now : Int) :
    (s.record_entry e now).best_previous e.label e.target =
      some ⟨e.rank, e.page, e.shift, e.date, e.raw, now⟩ := by
  simp [State.record_entry, State.best_previous, getA_updA_self]

theorem best_previous_record_ne (s : State) (e : Entry) (now : Int) (l t : String)
    (h : (l, t) ≠ (e.label, e.target)) :
    (s.record_entry e now).best_previous l t = s.best_previous l t := by
  by_cases hl : l = e.label
  · have ht : t ≠ e.target := by
      intro ht; exact h (by rw [hl, ht])
    subst hl
    cases hm : getA s.entries e.label with
    | none =>
      simp only [State.record_entry, State.best_previous, hm, getA_updA_self, Option.getD_none]
      rw [getA_updA_ne _ _ _ _ ht]
      rfl
    | some m =>
      simp only [State.record_entry, State.best_previous, hm, getA_updA_self, Option.getD_some]
      rw [getA_updA_ne _ _ _ _ ht]
  · simp [State.record_entry, State.best_previous, getA_updA_ne _ _ _ _ hl]

/-! ### Claim C6 — load behaviour -/

/-- C6: `load_state` returns an empty `State` when the file is absent, returns
an empty `State` without raising when the file's content is malformed JSON,
and fills missing optional subfields with defaults: `rank` defaults to 9999,
`page` defaults to 9999, and the timestamps (`updated_at`, `sent_at`) default
to the current time. -/
theorem c6_load_state_defaults :
    (∀ now : Int, load_state .missing now = ⟨[], []⟩) ∧
    (∀ now : Int, load_state .corrupted now = ⟨[], []⟩) ∧
    (∀ (now : Int) (l t k : String),
      load_state (.valid ⟨[(l, [(t, ⟨none, none, none, none, none, none⟩)])], [(k, ⟨none⟩)]⟩) now =
        ⟨[(l, [(t, ⟨9999, 9999, none, none, "", now⟩)])], [(k, ⟨now⟩)]⟩) := by
  refine ⟨fun now => rfl, fun now => rfl, fun now l t k => rfl⟩

/-! ### Claim C3 — rank-selection tie-break -/

/-- C3: the rank-selection fold replaces the current best exactly when the
candidate's rank is strictly lower, or its rank is equal and its page index is
strictly lower; given candidates (rank 5, page 1) and (rank 5, page 0) for the
same target, the page-0 record is selected. -/
theorem c3_rank_tie_break :
    (∀ prev e : Entry,
      better e prev = true ↔ (e.rank < prev.rank ∨ (e.rank = prev.rank ∧ e.page < prev.page))) ∧
    (∀ (l tg : String) (sh dt : Option String) (r1 r2 : String),
      getA (selectBest [⟨l, 1, 5, tg, sh, dt, r1⟩, ⟨l, 0, 5, tg, sh, dt, r2⟩]) (l, tg) =
        some ⟨l, 0, 5, tg, sh, dt, r2⟩) := by
  constructor
  · intro prev e
    simp [better]
  · intro l tg sh dt r1 r2
    simp [selectBest, selectStep, getA, updA, better]

/-! ### Claim C1 — change classification -/

/-- C1: with an existing previous `EntryState`, the classification is
"changed" exactly when the new rank is strictly lower, or the new page is
strictly lower, or the shift differs, or the date differs; a record whose rank
is strictly worse (higher) with identical page, shift and date is classified
"unchanged": it triggers no alert dispatch (nothing is sent, nothing saved, no
error), while the stored position is still overwritten with the new record. -/
theorem c1_change_classification :
    (∀ (e : Entry) (p : EntryState),
      classify e (some p) = .changed ↔
        (e.rank < p.rank ∨ e.page < p.page ∨ e.shift ≠ p.shift ∨ e.date ≠ p.date)) ∧
    (∀ (cfg : WatchConfig) (env : Env) (t : Int) (s : State) (e : Entry) (p : EntryState),
      s.best_previous e.label e.target = some p →
      p.rank < e.rank → e.page = p.page → e.shift = p.shift → e.date = p.date →
      handleEntries cfg env t s [e] =
        ⟨s.record_entry e t, [], [], none⟩ ∧
      (handleEntries cfg env t s [e]).state.best_previous e.label e.target =
        some ⟨e.rank, e.page, e.shift, e.date, e.raw, t⟩) := by
  constructor
  · intro e p
    by_cases h : changedCond e p = true
    · simp only [classify, if_pos h, true_iff]
      simpa [changedCond, bne_iff_ne, or_assoc] using h
    · simp only [classify, if_neg h]
      constructor
      · intro hc; exact absurd hc (by simp)
      · intro hc
        exact absurd (by simpa [changedCond, bne_iff_ne, or_assoc] using hc) h
  · intro cfg env t s e p hprev hrank hpage hshift hdate
    have hcond : changedCond e p = false := by
      simp [changedCond, hpage, hshift, hdate]
      omega
    have hsel : selectBest [e] = [((e.label, e.target), e)] := rfl
    have hmain : handleEntries cfg env t s [e] = ⟨s.record_entry e t, [], [], none⟩ := by
      simp only [handleEntries, hsel, handleLoop, hprev, classify, hcond, if_neg]
      simp
    refine ⟨hmain, ?_⟩
    rw [hmain]
    exact best_previous_record_self s e t

/-! ### Claim C2 — cooldown gating -/

/-- C2: the dispatcher proceeds to send exactly when no alert record exists
for the key or the elapsed time since `sent_at` is at least the configured
cooldown; with a 30-minute cooldown, a key sent 10 minutes ago is suppressed,
and a key is eligible again once 30 or more minutes have elapsed. -/
theorem c2_cooldown_gate :
    (∀ (s : State) (key : String) (cd now : Int),
      s.should_alert key cd now = true ↔
        (getA s.alerts key = none ∨
          ∃ a, getA s.alerts key = some a ∧ cd * 60 ≤ now - a.sent_at)) ∧
    (∀ (cfg : WatchConfig) (env : Env) (d : DiscordConfigM) (t : Int) (s : State)
        (e : Entry) (ct : String),
      env.discord = some d → (tierTemplate cfg d e.rank).2 ≠ "" →
      ((maybeNotify cfg env t s e ct).sends ≠ [] ↔
        s.should_alert (alertKey e (tierTemplate cfg d e.rank).1) cfg.cooldown_minutes t = true)) ∧
    (∀ (s : State) (key : String) (now sent : Int),
      getA s.alerts key = some ⟨sent⟩ → now - sent = 10 * 60 →
      s.should_alert key 30 now = false) ∧
    (∀ (s : State) (key : String) (now sent : Int),
      getA s.alerts key = some ⟨sent⟩ → 30 * 60 ≤ now - sent →
      s.should_alert key 30 now = true) := by
  refine ⟨?_, ?_, ?_, ?_⟩
  · intro s key cd now
    cases hg : getA s.alerts key with
    | none => simp [State.should_alert, hg]
    | some a =>
      simp only [State.should_alert, hg, decide_eq_true_eq]
      constructor
      · intro h; exact .inr ⟨a, rfl, h⟩
      · rintro (h | ⟨a', ha', h⟩)
        · exact absurd h (by simp)
        · cases Option.some.inj ha'; exact h
  · intro cfg env d t s e ct hd htpl
    simp only [maybeNotify, hd]
    rw [if_neg htpl]
    by_cases hsa :
        s.should_alert (alertKey e (tierTemplate cfg d e.rank).1) cfg.cooldown_minutes t = true
    · simp only [hsa, not_true, if_neg (by simp : ¬ (¬ True))]
      cases raiseForStatus (env.post (env.fmt (tierTemplate cfg d e.rank).2 e)) with
      | error er => simp [hsa]
      | ok u => simp [hsa]
    · have hsa' : s.should_alert (alertKey e (tierTemplate cfg d e.rank).1)
          cfg.cooldown_minutes t = false := by
        cases hb : s.should_alert (alertKey e (tierTemplate cfg d e.rank).1)
            cfg.cooldown_minutes t
        · rfl
        · exact absurd hb hsa
      simp [hsa']
  · intro s key now sent hg helapsed
    simp only [State.should_alert, hg]
    simp
    omega
  · intro s key now sent hg helapsed
    simp only [State.should_alert, hg]
    simpa using helapsed

/-! ### Claim C10 — failed delivery leaves the alert map untouched -/

/-- C10: if the send raises, the dispatcher leaves the state untouched — in
particular, no alert record is written, nothing is persisted, and the cooldown
decision for every key at any later time is unchanged (a failed delivery never
suppresses a future retry); the alert record is written and persisted only
when no error was raised and a message was actually sent. -/
theorem c10_failed_send_keeps_alerts :
    ∀ (cfg : WatchConfig) (env : Env) (t : Int) (s : State) (e : Entry) (ct : String),
      ((maybeNotify cfg env t s e ct).err.isSome →
        (maybeNotify cfg env t s e ct).state = s ∧
        (maybeNotify cfg env t s e ct).saves = [] ∧
        (∀ (k : String) (cd t' : Int),
          (maybeNotify cfg env t s e ct).state.should_alert k cd t' =
            s.should_alert k cd t')) ∧
      ((maybeNotify cfg env t s e ct).err = none → (maybeNotify cfg env t s e ct).sends ≠ [] →
        ∃ key, (maybeNotify cfg env t s e ct).state = s.record_alert key t ∧
          (maybeNotify cfg env t s e ct).saves = [save_state (s.record_alert key t)]) := by
  intro cfg env t s e ct
  cases hd : env.discord with
  | none => simp [maybeNotify, hd]
  | some d =>
    by_cases htpl : (tierTemplate cfg d e.rank).2 = ""
    · simp [maybeNotify, hd, htpl]
    · by_cases hsa : s.should_alert (alertKey e (tierTemplate cfg d e.rank).1)
          cfg.cooldown_minutes t = true
      · cases hrs : raiseForStatus
            (env.post (env.fmt (tierTemplate cfg d e.rank).2 e)) with
        | error er =>
          constructor
          · intro _
            simp [maybeNotify, hd, htpl, hsa, hrs]
          · intro herr
            have hcontra : (maybeNotify cfg env t s e ct).err = some er := by
              simp [maybeNotify, hd, htpl, hsa, hrs]
            rw [herr] at hcontra
            exact absurd hcontra (by simp)
        | ok u =>
          constructor
          · intro hs
            exact absurd hs (by simp [maybeNotify, hd, htpl, hsa, hrs])
          · intro _ _
            refine ⟨alertKey e (tierTemplate cfg d e.rank).1, ?_, ?_⟩
            · simp [maybeNotify, hd, htpl, hsa, hrs]
            · simp [maybeNotify, hd, htpl, hsa, hrs]
      · simp [maybeNotify, hd, htpl, hsa]

/-! ### Claim C7 — delivery failure propagates, aborts pass and loop, final flush -/

/-- C7: a non-success delivery response (4xx/5xx, the statuses
`raise_for_status` raises for) makes the send raise; the dispatcher propagates
that error without recovering (state untouched, nothing persisted by the
dispatcher); the per-entry loop stops at the failing entry regardless of the
remaining entries; the pass skips its end-of-pass save; the run loop executes
no further pass and re-raises the error — while the state is still flushed
once in the `finally` cleanup step of `run`. -/
theorem c7_delivery_failure_aborts :
    (∀ st : Int, 400 ≤ st → st < 600 → raiseForStatus st = .error (.httpError st)) ∧
    (∀ (cfg : WatchConfig) (env : Env) (d : DiscordConfigM) (t : Int) (s : State)
        (e : Entry) (ct : String),
      env.discord = some d →
      (tierTemplate cfg d e.rank).2 ≠ "" →
      s.should_alert (alertKey e (tierTemplate cfg d e.rank).1) cfg.cooldown_minutes t = true →
      400 ≤ env.post (env.fmt (tierTemplate cfg d e.rank).2 e) →
      env.post (env.fmt (tierTemplate cfg d e.rank).2 e) < 600 →
      maybeNotify cfg env t s e ct =
        ⟨s, [env.fmt (tierTemplate cfg d e.rank).2 e], [],
         some (.httpError (env.post (env.fmt (tierTemplate cfg d e.rank).2 e)))⟩) ∧
    (∀ (cfg : WatchConfig) (env : Env) (t : Int) (s : State) (sends : List String)
        (saves : List StateDoc) (x : (String × String) × Entry)
        (rest : List ((String × String) × Entry)) (er : DErr),
      (handleLoop cfg env t s sends saves [x]).err = some er →
      handleLoop cfg env t s sends saves (x :: rest) = handleLoop cfg env t s sends saves [x]) ∧
    (∀ (cfg : WatchConfig) (env : Env) (t : Int) (s : State) (es : List Entry) (er : DErr),
      (handleEntries cfg env t s es).err = some er →
      runOnce cfg env t s es = handleEntries cfg env t s es) ∧
    (∀ (doPass : Nat → State → PassOut) (once : Bool) (fuel : Nat) (s0 : State) (er : DErr),
      (doPass 0 s0).err = some er →
      run doPass once (fuel + 1) s0 =
        ⟨1, (doPass 0 s0).state, (doPass 0 s0).saves ++ [save_state (doPass 0 s0).state],
         some er⟩) := by
  refine ⟨?_, ?_, ?_, ?_, ?_⟩
  · intro st h1 h2
    simp [raiseForStatus, h1, h2]
  · intro cfg env d t s e ct hd htpl hsa h400 h600
    have hrs : raiseForStatus (env.post (env.fmt (tierTemplate cfg d e.rank).2 e)) =
        .error (.httpError (env.post (env.fmt (tierTemplate cfg d e.rank).2 e))) := by
      simp [raiseForStatus, h400, h600]
    simp [maybeNotify, hd, htpl, hsa, hrs]
  · intro cfg env t s sends saves x rest er herr
    rcases x with ⟨⟨label, target⟩, e⟩
    cases hcl : classify e (s.best_previous label target) with
    | unchanged =>
      have : (handleLoop cfg env t s sends saves [((label, target), e)]).err = none := by
        simp [handleLoop, hcl]
      rw [this] at herr
      cases herr
    | new =>
      cases hout : (maybeNotify cfg env t (s.record_entry e t) e "new").err with
      | some er' => simp [handleLoop, hcl, hout]
      | none =>
        have : (handleLoop cfg env t s sends saves [((label, target), e)]).err = none := by
          simp [handleLoop, hcl, hout]
        rw [this] at herr
        cases herr
    | changed =>
      cases hout : (maybeNotify cfg env t (s.record_entry e t) e "update").err with
      | some er' => simp [handleLoop, hcl, hout]
      | none =>
        have : (handleLoop cfg env t s sends saves [((label, target), e)]).err = none := by
          simp [handleLoop, hcl, hout]
        rw [this] at herr
        cases herr
  · intro cfg env t s es er herr
    simp [runOnce, herr]
  · intro doPass once fuel s0 er herr
    simp [run, runLoop, herr]

/-! ### Concrete fixtures used by witness instantiations -/

/-- A concrete watch configuration (the config.py defaults: cooldown 30
minutes, top threshold 6, warn threshold 10, page limit 20). -/
def wCfg : WatchConfig := ⟨20, 30, 6, 10⟩

/-- A concrete Discord configuration with non-empty templates. -/
def wDiscord : DiscordConfigM := ⟨"t", "w", "u"⟩

/-- An environment whose webhook POST succeeds (204). -/
def wEnvOk : Env := ⟨some wDiscord, fun _ => 204, fun _ _ => "m"⟩

/-- An environment whose webhook POST fails (500). -/
def wEnvFail : Env := ⟨some wDiscord, fun _ => 500, fun _ _ => "m"⟩

/-- An environment with the notifier disabled. -/
def wEnvOff : Env := ⟨none, fun _ => 204, fun _ _ => "m"⟩

/-- A concrete entry: rank 3, page 0, for target T on list L. -/
def wEntry : Entry := ⟨"L", 0, 3, "T", none, none, "r"⟩

theorem c1_witness :
    (⟨[("L", [("T", ⟨5, 0, none, none, "r", 100⟩)])], []⟩ : State).best_previous "L" "T" =
        some ⟨5, 0, none, none, "r", 100⟩ ∧
    (5 : Int) < 9 ∧
    handleEntries wCfg wEnvOk 200 ⟨[("L", [("T", ⟨5, 0, none, none, "r", 100⟩)])], []⟩
        [⟨"L", 0, 9, "T", none, none, "r"⟩] =
      ⟨State.record_entry ⟨[("L", [("T", ⟨5, 0, none, none, "r", 100⟩)])], []⟩
        ⟨"L", 0, 9, "T", none, none, "r"⟩ 200, [], [], none⟩ :=
  ⟨by decide, by decide,
   (c1_change_classification.2 wCfg wEnvOk 200
      ⟨[("L", [("T", ⟨5, 0, none, none, "r", 100⟩)])], []⟩
      ⟨"L", 0, 9, "T", none, none, "r"⟩ ⟨5, 0, none, none, "r", 100⟩
      (by decide) (by decide) rfl rfl rfl).1⟩

theorem c2_witness :
    (⟨[], [("K", ⟨1000⟩)]⟩ : State).should_alert "K" 30 1600 = false ∧
    (⟨[], [("K", ⟨1000⟩)]⟩ : State).should_alert "K" 30 2800 = true ∧
    ((maybeNotify wCfg wEnvOk 200 ⟨[], []⟩ wEntry "new").sends ≠ [] ↔
      (⟨[], []⟩ : State).should_alert (alertKey wEntry (tierTemplate wCfg wDiscord wEntry.rank).1)
        wCfg.cooldown_minutes 200 = true) :=
  ⟨c2_cooldown_gate.2.2.1 _ "K" 1600 1000 (by decide) (by decide),
   c2_cooldown_gate.2.2.2 _ "K" 2800 1000 (by decide) (by decide),
   c2_cooldown_gate.2.1 wCfg wEnvOk wDiscord 200 ⟨[], []⟩ wEntry "new" rfl (by decide)⟩

theorem c7_witness :
    raiseForStatus 500 = .error (.httpError 500) ∧
    maybeNotify wCfg wEnvFail 200 ⟨[], []⟩ wEntry "new" =
      ⟨⟨[], []⟩, ["m"], [], some (.httpError 500)⟩ ∧
    handleLoop wCfg wEnvFail 200 ⟨[], []⟩ [] []
        [(("L", "T"), wEntry), (("L", "T"), wEntry)] =
      handleLoop wCfg wEnvFail 200 ⟨[], []⟩ [] [] [(("L", "T"), wEntry)] ∧
    runOnce wCfg wEnvFail 200 ⟨[], []⟩ [wEntry] = handleEntries wCfg wEnvFail 200 ⟨[], []⟩ [wEntry] ∧
    run (fun _ s => runOnce wCfg wEnvFail 200 s [wEntry]) false 4 ⟨[], []⟩ =
      ⟨1, (runOnce wCfg wEnvFail 200 ⟨[], []⟩ [wEntry]).state,
       (runOnce wCfg wEnvFail 200 ⟨[], []⟩ [wEntry]).saves ++
         [save_state (runOnce wCfg wEnvFail 200 ⟨[], []⟩ [wEntry]).state],
       some (.httpError 500)⟩ :=
  ⟨c7_delivery_failure_aborts.1 500 (by decide) (by decide),
   by
    have h := c7_delivery_failure_aborts.2.1 wCfg wEnvFail wDiscord 200 ⟨[], []⟩ wEntry "new"
      rfl (by decide) (by decide) (by decide) (by decide)
    exact h,
   c7_delivery_failure_aborts.2.2.1 wCfg wEnvFail 200 ⟨[], []⟩ [] []
     (("L", "T"), wEntry) [(("L", "T"), wEntry)] (.httpError 500) (by decide),
   c7_delivery_failure_aborts.2.2.2.1 wCfg wEnvFail 200 ⟨[], []⟩ [wEntry] (.httpError 500)
     (by decide),
   c7_delivery_failure_aborts.2.2.2.2 (fun _ s => runOnce wCfg wEnvFail 200 s [wEntry]) false 3
     ⟨[], []⟩ (.httpError 500) (by decide)⟩

theorem c10_witness :
    (maybeNotify wCfg wEnvFail 200 ⟨[], []⟩ wEntry "new").err.isSome = true ∧
    (maybeNotify wCfg wEnvFail 200 ⟨[], []⟩ wEntry "new").state = ⟨[], []⟩ ∧
    (maybeNotify wCfg wEnvFail 200 ⟨[], []⟩ wEntry "new").saves = [] :=
  ⟨by decide,
   ((c10_failed_send_keeps_alerts wCfg wEnvFail 200 ⟨[], []⟩ wEntry "new").1 (by decide)).1,
   ((c10_failed_send_keeps_alerts wCfg wEnvFail 200 ⟨[], []⟩ wEntry "new").1 (by decide)).2.1⟩

/-! ### Claim C4 — pagination dedup -/

theorem pageLoop_stop {γ : Type} (fetchC : Nat → γ) (digest : γ → String)
    (pe : Nat → γ → List Entry) (fuel page : Nat) (seen : List String)
    (hne : seen ≠ []) (hmem : digest (fetchC page) ∈ seen) :
    pageLoop fetchC digest pe (fuel + 1) page seen = ⟨[page], [], []⟩ := by
  simp [pageLoop, hne, hmem]

theorem pageLoop_clean {γ : Type} (fetchC : Nat → γ) (digest : γ → String)
    (pe : Nat → γ → List Entry) :
    ∀ (fuel page : Nat) (seen : List String),
    (∀ i, i < fuel → digest (fetchC (page + i)) ∉ seen ∧
      ∀ j, j < i → digest (fetchC (page + i)) ≠ digest (fetchC (page + j))) →
    pageLoop fetchC digest pe fuel page seen =
      ⟨List.range' page fuel, List.range' page fuel,
       ((List.range' page fuel).map (fun p => pe p (fetchC p))).flatten⟩ := by
  intro fuel
  induction fuel with
  | zero => intro page seen _; simp [pageLoop]
  | succ f ih =>
    intro page seen h
    have h0 : digest (fetchC page) ∉ seen := by
      have := (h 0 (Nat.succ_pos f)).1
      simpa using this
    have hrec := ih (page + 1) (seen ++ [digest (fetchC page)]) ?_
    · have hcond : ¬ (seen ≠ [] ∧ digest (fetchC page) ∈ seen) := by
        intro hc; exact h0 hc.2
      simp only [pageLoop, if_neg hcond, hrec]
      rw [List.range'_succ page f 1]
      simp
    · intro i hi
      have hcur := h (i + 1) (Nat.succ_lt_succ hi)
      constructor
      · intro hmem
        rcases List.mem_append.mp hmem with hm | hm
        · exact hcur.1 (by simpa [Nat.add_assoc, Nat.add_comm 1 i] using hm)
        · have heq : digest (fetchC (page + 1 + i)) = digest (fetchC page) := by
            simpa using hm
          have := hcur.2 0 (Nat.succ_pos i)
          exact this (by simpa [Nat.add_assoc, Nat.add_comm 1 i] using heq)
      · intro j hj
        have := hcur.2 (j + 1) (Nat.succ_lt_succ hj)
        simpa [Nat.add_assoc, Nat.add_comm 1 i, Nat.add_comm 1 j] using this

theorem pageLoop_first_repeat {γ : Type} (fetchC : Nat → γ) (digest : γ → String)
    (pe : Nat → γ → List Entry) :
    ∀ (p fuel page : Nat) (seen : List String),
    p < fuel →
    (∀ i, i < p → digest (fetchC (page + i)) ∉ seen ∧
      ∀ j, j < i → digest (fetchC (page + i)) ≠ digest (fetchC (page + j))) →
    (digest (fetchC (page + p)) ∈ seen ∨
      ∃ j, j < p ∧ digest (fetchC (page + p)) = digest (fetchC (page + j))) →
    pageLoop fetchC digest pe fuel page seen =
      ⟨List.range' page (p + 1), List.range' page p,
       ((List.range' page p).map (fun q => pe q (fetchC q))).flatten⟩ := by
  intro p
  induction p with
  | zero =>
    intro fuel page seen hfuel _hclean hrep
    have hmem : digest (fetchC page) ∈ seen := by
      rcases hrep with h | ⟨j, hj, _⟩
      · simpa using h
      · exact absurd hj (Nat.not_lt_zero j)
    obtain ⟨f, rfl⟩ : ∃ f, fuel = f + 1 := ⟨fuel - 1, by omega⟩
    rw [pageLoop_stop fetchC digest pe f page seen (by rintro rfl; simp at hmem) hmem]
    simp
  | succ p ih =>
    intro fuel page seen hfuel hclean hrep
    obtain ⟨f, rfl⟩ : ∃ f, fuel = f + 1 := ⟨fuel - 1, by omega⟩
    have h0 : digest (fetchC page) ∉ seen := by
      have := (hclean 0 (Nat.succ_pos p)).1
      simpa using this
    have hcond : ¬ (seen ≠ [] ∧ digest (fetchC page) ∈ seen) := by
      intro hc; exact h0 hc.2
    have hrec := ih f (page + 1) (seen ++ [digest (fetchC page)]) (by omega) ?_ ?_
    · simp only [pageLoop, if_neg hcond, hrec]
      rw [List.range'_succ page (p + 1) 1, List.range'_succ page p 1]
      simp
    · intro i hi
      have hcur := hclean (i + 1) (Nat.succ_lt_succ hi)
      constructor
      · intro hmem
        rcases List.mem_append.mp hmem with hm | hm
        · exact hcur.1 (by simpa [Nat.add_assoc, Nat.add_comm 1 i] using hm)
        · have heq : digest (fetchC (page + 1 + i)) = digest (fetchC page) := by
            simpa using hm
          have := hcur.2 0 (Nat.succ_pos i)
          exact this (by simpa [Nat.add_assoc, Nat.add_comm 1 i] using heq)
      · intro j hj
        have := hcur.2 (j + 1) (Nat.succ_lt_succ hj)
        simpa [Nat.add_assoc, Nat.add_comm 1 i, Nat.add_comm 1 j] using this
    · rcases hrep with h | ⟨j, hj, hjeq⟩
      · left
        exact List.mem_append.mpr (.inl (by simpa [Nat.add_assoc, Nat.add_comm 1 p] using h))
      · cases j with
        | zero =>
          left
          refine List.mem_append.mpr (.inr ?_)
          simpa [Nat.add_assoc, Nat.add_comm 1 p] using hjeq
        | succ j' =>
          right
          refine ⟨j', by omega, ?_⟩
          simpa [Nat.add_assoc, Nat.add_comm 1 p, Nat.add_comm 1 j'] using hjeq

theorem fetchList_no_repeat {γ : Type} (fetchC : Nat → γ) (digest : γ → String)
    (pe : Nat → γ → List Entry) (limit : Nat)
    (h : ∀ i j, i < limit → j < i → digest (fetchC i) ≠ digest (fetchC j)) :
    fetchList fetchC digest pe limit =
      ⟨List.range limit, List.range limit,
       ((List.range limit).map (fun p => pe p (fetchC p))).flatten⟩ := by
  rw [fetchList, pageLoop_clean fetchC digest pe limit 0 []]
  · rw [List.range_eq_range']
  · intro i hi
    refine ⟨by simp, ?_⟩
    intro j hj
    simpa using h i j hi hj

theorem fetchList_first_repeat {γ : Type} (fetchC : Nat → γ) (digest : γ → String)
    (pe : Nat → γ → List Entry) (limit p : Nat)
    (hp : p < limit)
    (hclean : ∀ q r, q < p → r < q → digest (fetchC q) ≠ digest (fetchC r))
    (hrep : ∃ j, j < p ∧ digest (fetchC p) = digest (fetchC j)) :
    fetchList fetchC digest pe limit =
      ⟨List.range (p + 1), List.range p,
       ((List.range p).map (fun q => pe q (fetchC q))).flatten⟩ := by
  rw [fetchList, pageLoop_first_repeat fetchC digest pe p limit 0 [] hp]
  · rw [List.range_eq_range', List.range_eq_range']
  · intro i hi
    refine ⟨by simp, ?_⟩
    intro j hj
    simpa using hclean i j hi hj
  · rcases hrep with ⟨j, hj, hje⟩
    right
    exact ⟨j, hj, by simpa using hje⟩

/-- C4: pagination of a list stops as soon as a fetched page's fingerprint
equals the fingerprint of any previously fetched page of that list in the
current pass (not only the immediately preceding page), and otherwise stops at
the configured page ceiling without error; for a list whose pages 0 and 2 have
identical content while page 1 has a distinct fingerprint, the loop stops
after page 2 without fetching page 3, and only pages 0-2 contribute records
(page 2, being a repeat, is fetched but contributes none). -/
theorem c4_pagination_dedup :
    (∀ (γ : Type) (fetchC : Nat → γ) (digest : γ → String) (pe : Nat → γ → List Entry)
        (limit : Nat),
      (∀ i j, i < limit → j < i → digest (fetchC i) ≠ digest (fetchC j)) →
      fetchList fetchC digest pe limit =
        ⟨List.range limit, List.range limit,
         ((List.range limit).map (fun p => pe p (fetchC p))).flatten⟩) ∧
    (∀ (γ : Type) (fetchC : Nat → γ) (digest : γ → String) (pe : Nat → γ → List Entry)
        (limit p : Nat),
      p < limit →
      (∀ q r, q < p → r < q → digest (fetchC q) ≠ digest (fetchC r)) →
      (∃ j, j < p ∧ digest (fetchC p) = digest (fetchC j)) →
      fetchList fetchC digest pe limit =
        ⟨List.range (p + 1), List.range p,
         ((List.range p).map (fun q => pe q (fetchC q))).flatten⟩) ∧
    (∀ (γ : Type) (fetchC : Nat → γ) (digest : γ → String) (pe : Nat → γ → List Entry)
        (limit : Nat),
      3 ≤ limit → fetchC 2 = fetchC 0 → digest (fetchC 1) ≠ digest (fetchC 0) →
      fetchList fetchC digest pe limit =
        ⟨[0, 1, 2], [0, 1], pe 0 (fetchC 0) ++ pe 1 (fetchC 1)⟩) := by
  refine ⟨?_, ?_, ?_⟩
  · intro γ fetchC digest pe limit h
    exact fetchList_no_repeat fetchC digest pe limit h
  · intro γ fetchC digest pe limit p hp hclean hrep
    exact fetchList_first_repeat fetchC digest pe limit p hp hclean hrep
  · intro γ fetchC digest pe limit hlim hsame hdiff
    have h := fetchList_first_repeat fetchC digest pe limit 2 (by omega)
      (by
        intro q r hq hr
        have hq1 : q = 1 := by omega
        have hr0 : r = 0 := by omega
        rw [hq1, hr0]
        exact hdiff)
      ⟨0, by omega, by rw [hsame]⟩
    rw [h]
    simp [List.range_succ]

theorem c4_witness :
    (∀ i j, i < 3 → j < i →
      (fun n : Nat => String.mk (List.replicate n 'a')) ((fun n : Nat => n) i) ≠
        (fun n : Nat => String.mk (List.replicate n 'a')) ((fun n : Nat => n) j)) ∧
    fetchList (fun n : Nat => n) (fun n : Nat => String.mk (List.replicate n 'a'))
        (fun _ _ => ([] : List Entry)) 3 = ⟨[0, 1, 2], [0, 1, 2], []⟩ ∧
    (fun n : Nat => if n = 2 then 0 else n) 2 = (fun n : Nat => if n = 2 then 0 else n) 0 ∧
    (fun n : Nat => String.mk (List.replicate n 'a'))
        ((fun n : Nat => if n = 2 then 0 else n) 1) ≠
      (fun n : Nat => String.mk (List.replicate n 'a'))
        ((fun n : Nat => if n = 2 then 0 else n) 0) ∧
    fetchList (fun n : Nat => if n = 2 then 0 else n)
        (fun n : Nat => String.mk (List.replicate n 'a'))
        (fun _ _ => ([] : List Entry)) 20 = ⟨[0, 1, 2], [0, 1], []⟩ :=
  ⟨by intro i j hi hj; interval_cases i <;> interval_cases j <;> decide,
   by
    have h := c4_pagination_dedup.1 Nat (fun n : Nat => n)
      (fun n : Nat => String.mk (List.replicate n 'a')) (fun _ _ => ([] : List Entry)) 3
      (by intro i j hi hj; interval_cases i <;> interval_cases j <;> decide)
    simpa using h,
   by decide, by decide,
   by
    have h := c4_pagination_dedup.2.2 Nat (fun n : Nat => if n = 2 then 0 else n)
      (fun n : Nat => String.mk (List.replicate n 'a')) (fun _ _ => ([] : List Entry)) 20
      (by decide) (by decide) (by decide)
    simpa using h⟩

/-! ### Claim C5 — restart idempotence -/

/-- The observable fields of a candidate record, excluding the timestamp. -/
def entryCore (e : Entry) : Int × Int × Option String × Option String × String :=
  (e.rank, e.page, e.shift, e.date, e.raw)

/-- The observable fields of a persisted position, excluding `updated_at`. -/
def stateCore (p : EntryState) : Int × Int × Option String × Option String × String :=
  (p.rank, p.page, p.shift, p.date, p.raw)

theorem load_save_roundtrip (s : State) (now : Int) :
    load_state (.valid (save_state s)) now = s := by
  cases s with
  | mk entries alerts =>
    simp only [load_state, save_state, List.map_map]
    congr 1
    · induction entries with
      | nil => rfl
      | cons hd t ih =>
        simp only [List.map_cons, Function.comp, ih]
        refine congrArg (· :: t) ?_
        rcases hd with ⟨l, m⟩
        simp only
        refine congrArg (Prod.mk l) ?_
        induction m with
        | nil => rfl
        | cons hd2 t2 ih2 =>
          simp only [List.map_cons, ih2]
          rfl
    · induction alerts with
      | nil => rfl
      | cons hd t ih =>
        simp only [List.map_cons, Function.comp, ih]
        rfl

theorem selectStep_key (acc : List ((String × String) × Entry)) (e : Entry)
    (h : ∀ k x, (k, x) ∈ acc → k = (x.label, x.target)) :
    ∀ k x, (k, x) ∈ selectStep acc e → k = (x.label, x.target) := by
  intro k x hm
  cases hg : getA acc (e.label, e.target) with
  | none =>
    simp only [selectStep, hg] at hm
    rcases mem_updA hm with h' | h'
    · rcases Prod.mk.injEq .. ▸ h' with ⟨hk, hx⟩
      rw [hk, hx]
    · exact h k x h'
  | some prev =>
    simp only [selectStep, hg] at hm
    by_cases hb : better e prev = true
    · rw [if_pos hb] at hm
      rcases mem_updA hm with h' | h'
      · rcases Prod.mk.injEq .. ▸ h' with ⟨hk, hx⟩
        rw [hk, hx]
      · exact h k x h'
    · rw [if_neg hb] at hm
      exact h k x hm

theorem selectStep_nodup (acc : List ((String × String) × Entry)) (e : Entry)
    (h : (acc.map Prod.fst).Nodup) : ((selectStep acc e).map Prod.fst).Nodup := by
  cases hg : getA acc (e.label, e.target) with
  | none =>
    simp only [selectStep, hg]
    exact keys_updA_nodup _ _ h
  | some prev =>
    simp only [selectStep, hg]
    by_cases hb : better e prev = true
    · rw [if_pos hb]; exact keys_updA_nodup _ _ h
    · rw [if_neg hb]; exact h

theorem foldl_selectStep_key :
    ∀ (es : List Entry) (acc : List ((String × String) × Entry)),
      (∀ k x, (k, x) ∈ acc → k = (x.label, x.target)) →
      ∀ k x, (k, x) ∈ es.foldl selectStep acc → k = (x.label, x.target) := by
  intro es
  induction es with
  | nil => intro acc h; simpa using h
  | cons hd t ih => intro acc h; exact ih _ (selectStep_key acc hd h)

theorem foldl_selectStep_nodup :
    ∀ (es : List Entry) (acc : List ((String × String) × Entry)),
      (acc.map Prod.fst).Nodup → ((es.foldl selectStep acc).map Prod.fst).Nodup := by
  intro es
  induction es with
  | nil => intro acc h; simpa using h
  | cons hd t ih => intro acc h; exact ih _ (selectStep_nodup acc hd h)

theorem selectBest_key (es : List Entry) :
    ∀ k x, (k, x) ∈ selectBest es → k = (x.label, x.target) :=
  foldl_selectStep_key es [] (by simp)

theorem selectBest_nodup (es : List Entry) : ((selectBest es).map Prod.fst).Nodup :=
  foldl_selectStep_nodup es [] (by simp)

theorem handleLoop_all_unchanged (cfg : WatchConfig) (env : Env) (t : Int) :
    ∀ (L : List ((String × String) × Entry)) (s : State) (sends : List String)
      (saves : List StateDoc),
      (∀ k e, (k, e) ∈ L → k = (e.label, e.target)) →
      (L.map Prod.fst).Nodup →
      (∀ k e, (k, e) ∈ L → ∃ p, s.best_previous k.1 k.2 = some p ∧ stateCore p = entryCore e) →
      (handleLoop cfg env t s sends saves L).sends = sends ∧
      (handleLoop cfg env t s sends saves L).saves = saves ∧
      (handleLoop cfg env t s sends saves L).err = none ∧
      (handleLoop cfg env t s sends saves L).state.alerts = s.alerts ∧
      (∀ l tg, ((handleLoop cfg env t s sends saves L).state.best_previous l tg).map stateCore =
        (s.best_previous l tg).map stateCore) := by
  intro L
  induction L with
  | nil =>
    intro s sends saves _ _ _
    simp [handleLoop]
  | cons hd rest ih =>
    intro s sends saves hkey hnd hprev
    rcases hd with ⟨⟨l₀, t₀⟩, e⟩
    have hk0 : (l₀, t₀) = (e.label, e.target) :=
      hkey (l₀, t₀) e (List.mem_cons_self _ _)
    injection hk0 with hl0 ht0
    subst hl0
    subst ht0
    obtain ⟨p, hp, hcore⟩ := hprev (e.label, e.target) e (List.mem_cons_self _ _)
    have hrank : p.rank = e.rank := congrArg (fun q => q.1) hcore
    have hpage : p.page = e.page := congrArg (fun q => q.2.1) hcore
    have hshift : p.shift = e.shift := congrArg (fun q => q.2.2.1) hcore
    have hdate : p.date = e.date := congrArg (fun q => q.2.2.2.1) hcore
    have hcond : changedCond e p = false := by
      simp [changedCond, hrank, hpage, hshift, hdate]
    have hcl : classify e (s.best_previous e.label e.target) = .unchanged := by
      rw [hp]
      simp [classify, hcond]
    have hstep : handleLoop cfg env t s sends saves (((e.label, e.target), e) :: rest) =
        handleLoop cfg env t (s.record_entry e t) sends saves rest := by
      simp only [handleLoop, hcl]
    have hndrest : (rest.map Prod.fst).Nodup := by
      have hh := hnd
      simp only [List.map_cons] at hh
      exact (List.nodup_cons.mp hh).2
    have hheadout : (e.label, e.target) ∉ rest.map Prod.fst := by
      have hh := hnd
      simp only [List.map_cons] at hh
      exact (List.nodup_cons.mp hh).1
    have hrest := ih (s.record_entry e t) sends saves
      (fun k x hm => hkey k x (List.mem_cons_of_mem _ hm))
      hndrest
      (by
        intro k x hm
        have hkne : k ≠ (e.label, e.target) := by
          intro hkeq
          exact hheadout (hkeq ▸ List.mem_map.mpr ⟨(k, x), hm, rfl⟩)
        obtain ⟨p', hp', hc'⟩ := hprev k x (List.mem_cons_of_mem _ hm)
        refine ⟨p', ?_, hc'⟩
        rw [← hp']
        exact best_previous_record_ne s e t k.1 k.2 hkne)
    rw [hstep]
    refine ⟨hrest.1, hrest.2.1, hrest.2.2.1, ?_, ?_⟩
    · rw [hrest.2.2.2.1, record_entry_alerts]
    · intro l tg
      rw [hrest.2.2.2.2 l tg]
      by_cases hca : (l, tg) = (e.label, e.target)
      · injection hca with h1 h2
        subst h1
        subst h2
        rw [best_previous_record_self, hp]
        show some (entryCore e) = some (stateCore p)
        exact congrArg some hcore.symm
      · rw [best_previous_record_ne s e t l tg hca]

/-- C5 (amended): persisting the state, reloading it, and running a pass whose
records match the stored positions on rank, page, shift, date and raw text
(the situation produced by byte-identical page content) produces zero alerts —
nothing is sent, nothing saved by the dispatcher, no error, and the alert map
is unchanged — and leaves the set of `EntryState`s unchanged up to
`updated_at`: same keys and same rank/page/shift/date/raw values. The
`updated_at` timestamp of each selected key is refreshed to the pass time, so
the full field values are not preserved (see the counterexample). -/
theorem c5_idempotent_restart_core :
    ∀ (cfg : WatchConfig) (env : Env) (tload tpass : Int) (s : State) (es : List Entry),
      (∀ k e, (k, e) ∈ selectBest es →
        ∃ p, s.best_previous k.1 k.2 = some p ∧ stateCore p = entryCore e) →
      load_state (.valid (save_state s)) tload = s ∧
      (handleEntries cfg env tpass (load_state (.valid (save_state s)) tload) es).sends = [] ∧
      (handleEntries cfg env tpass (load_state (.valid (save_state s)) tload) es).saves = [] ∧
      (handleEntries cfg env tpass (load_state (.valid (save_state s)) tload) es).err = none ∧
      (handleEntries cfg env tpass
          (load_state (.valid (save_state s)) tload) es).state.alerts = s.alerts ∧
      (∀ l tg,
        ((handleEntries cfg env tpass
            (load_state (.valid (save_state s)) tload) es).state.best_previous l tg).map
          stateCore = (s.best_previous l tg).map stateCore) := by
  intro cfg env tload tpass s es hmatch
  have hrt := load_save_roundtrip s tload
  rw [hrt]
  have h := handleLoop_all_unchanged cfg env tpass (selectBest es) s [] []
    (selectBest_key es) (selectBest_nodup es) hmatch
  exact ⟨rfl, h.1, h.2.1, h.2.2.1, h.2.2.2.1, h.2.2.2.2⟩

/-- C5 counterexample: the claim's "same field values as before the pass" is
false — `record_entry` stamps `updated_at` with the pass time on every pass,
including an unchanged one. Here the stored position (updated at time 100) is
re-observed identically at pass time 200 and its `updated_at` becomes 200. -/
theorem c5_counterexample :
    (handleEntries wCfg wEnvOk 200
        (load_state (.valid (save_state ⟨[("L", [("T", ⟨5, 0, none, none, "r", 100⟩)])], []⟩)) 150)
        [⟨"L", 0, 5, "T", none, none, "r"⟩]).state.best_previous "L" "T" =
      some ⟨5, 0, none, none, "r", 200⟩ ∧
    (⟨[("L", [("T", ⟨5, 0, none, none, "r", 100⟩)])], []⟩ : State).best_previous "L" "T" =
      some ⟨5, 0, none, none, "r", 100⟩ ∧
    (⟨5, 0, none, none, "r", 200⟩ : EntryState) ≠ ⟨5, 0, none, none, "r", 100⟩ :=
  ⟨by decide, by decide, by decide⟩

theorem c5_witness :
    (handleEntries wCfg wEnvOk 200
        (load_state (.valid (save_state ⟨[("L", [("T", ⟨5, 0, none, none, "r", 100⟩)])], []⟩)) 150)
        [⟨"L", 0, 5, "T", none, none, "r"⟩]).sends = [] ∧
    (handleEntries wCfg wEnvOk 200
        (load_state (.valid (save_state ⟨[("L", [("T", ⟨5, 0, none, none, "r", 100⟩)])], []⟩)) 150)
        [⟨"L", 0, 5, "T", none, none, "r"⟩]).state.alerts = [] ∧
    ((handleEntries wCfg wEnvOk 200
        (load_state (.valid (save_state ⟨[("L", [("T", ⟨5, 0, none, none, "r", 100⟩)])], []⟩)) 150)
        [⟨"L", 0, 5, "T", none, none, "r"⟩]).state.best_previous "L" "T").map stateCore =
      ((⟨[("L", [("T", ⟨5, 0, none, none, "r", 100⟩)])], []⟩ : State).best_previous "L" "T").map
        stateCore := by
  have h := c5_idempotent_restart_core wCfg wEnvOk 150 200
    ⟨[("L", [("T", ⟨5, 0, none, none, "r", 100⟩)])], []⟩
    [⟨"L", 0, 5, "T", none, none, "r"⟩]
    (by
      intro k e hm
      have hm' : (k, e) = (("L", "T"), (⟨"L", 0, 5, "T", none, none, "r"⟩ : Entry)) := by
        simpa [selectBest, selectStep, getA, updA] using hm
      injection hm' with hk he
      subst hk
      subst he
      exact ⟨⟨5, 0, none, none, "r", 100⟩, by decide, rfl⟩)
  exact ⟨h.2.1, h.2.2.2.2.1, h.2.2.2.2.2 "L" "T"⟩

/-! ### Claim C8 — order invariance of the selection -/

/-- The (rank, page index) of a record — the pair the selection fold orders
by. -/
def rankPage (e : Entry) : Int × Int := (e.rank, e.page)

/-- The `better` test transported to (rank, page) pairs: lexicographic strict
comparison. -/
def ltPair (p q : Int × Int) : Bool :=
  (p.1 < q.1) || (p.1 == q.1 && p.2 < q.2)

/-- Lexicographic minimum on optional (rank, page) pairs, the projection of
one selection-fold step. -/
def minOptPair (acc : Option (Int × Int)) (p : Int × Int) : Option (Int × Int) :=
  match acc with
  | none => some p
  | some q => if ltPair p q then some p else some q

/-- The selection fold restricted to one (label, target) key. -/
def selectKeyStep (k : String × String) (acc : Option Entry) (e : Entry) : Option Entry :=
  if (e.label, e.target) = k then
    match acc with
    | none => some e
    | some prev => if better e prev then some e else some prev
  else acc

/-- The record the pass selects for one (label, target) key. -/
def selectForKey (k : String × String) (es : List Entry) : Option Entry :=
  es.foldl (selectKeyStep k) none

theorem getA_selectStep (acc : List ((String × String) × Entry)) (e : Entry)
    (k : String × String) :
    getA (selectStep acc e) k = selectKeyStep k (getA acc k) e := by
  by_cases hk : (e.label, e.target) = k
  · subst hk
    cases hg : getA acc (e.label, e.target) with
    | none =>
      simp only [selectStep, hg, selectKeyStep, if_pos rfl, if_true]
      rw [getA_updA_self]
    | some prev =>
      simp only [selectStep, hg, selectKeyStep, if_pos rfl, if_true]
      by_cases hb : better e prev = true
      · rw [if_pos hb, if_pos hb, getA_updA_self]
      · rw [if_neg hb, if_neg hb, hg]
  · cases hg : getA acc (e.label, e.target) with
    | none =>
      simp only [selectStep, hg, selectKeyStep, if_neg hk]
      rw [getA_updA_ne _ _ _ _ (fun h => hk h.symm)]
    | some prev =>
      simp only [selectStep, hg, selectKeyStep, if_neg hk]
      by_cases hb : better e prev = true
      · rw [if_pos hb, getA_updA_ne _ _ _ _ (fun h => hk h.symm)]
      · rw [if_neg hb]

theorem getA_foldl_selectStep :
    ∀ (es : List Entry) (acc : List ((String × String) × Entry)) (k : String × String),
      getA (es.foldl selectStep acc) k = es.foldl (selectKeyStep k) (getA acc k) := by
  intro es
  induction es with
  | nil => intro acc k; rfl
  | cons e t ih =>
    intro acc k
    simp only [List.foldl_cons]
    rw [ih, getA_selectStep]

theorem getA_selectBest (es : List Entry) (k : String × String) :
    getA (selectBest es) k = selectForKey k es := by
  rw [selectBest, selectForKey, getA_foldl_selectStep]
  rfl

theorem ltPair_true_iff (p q : Int × Int) :
    ltPair p q = true ↔ (p.1 < q.1 ∨ (p.1 = q.1 ∧ p.2 < q.2)) := by
  simp [ltPair]

theorem ltPair_false_iff (p q : Int × Int) :
    ltPair p q = false ↔ ¬ (p.1 < q.1 ∨ (p.1 = q.1 ∧ p.2 < q.2)) := by
  rw [← Bool.not_eq_true, ltPair_true_iff]

theorem selectKeyStep_rankPage (k : String × String) (acc : Option Entry) (e : Entry)
    (hk : (e.label, e.target) = k) :
    (selectKeyStep k acc e).map rankPage = minOptPair (acc.map rankPage) (rankPage e) := by
  cases acc with
  | none => simp [selectKeyStep, hk, minOptPair]
  | some prev =>
    simp only [selectKeyStep, hk, if_pos rfl, if_true, Option.map_some', minOptPair]
    by_cases hb : better e prev = true
    · rw [if_pos hb, if_pos (show ltPair (rankPage e) (rankPage prev) = true from hb),
        Option.map_some']
    · rw [if_neg hb, if_neg (show ¬ ltPair (rankPage e) (rankPage prev) = true from hb),
        Option.map_some']

theorem foldl_selectKeyStep_rankPage (k : String × String) :
    ∀ (es : List Entry) (acc : Option Entry),
      (es.foldl (selectKeyStep k) acc).map rankPage =
        ((es.filter (fun e => decide ((e.label, e.target) = k))).map rankPage).foldl
          minOptPair (acc.map rankPage) := by
  intro es
  induction es with
  | nil => intro acc; rfl
  | cons e t ih =>
    intro acc
    by_cases hk : (e.label, e.target) = k
    · rw [List.foldl_cons, List.filter_cons_of_pos (by simpa using hk), List.map_cons,
        List.foldl_cons, ih, selectKeyStep_rankPage k acc e hk]
    · have hstep : selectKeyStep k acc e = acc := by
        simp [selectKeyStep, hk]
      rw [List.foldl_cons, List.filter_cons_of_neg (by simpa using hk), hstep, ih]

theorem minOptPair_comm (z : Option (Int × Int)) (p q : Int × Int) :
    minOptPair (minOptPair z p) q = minOptPair (minOptPair z q) p := by
  rcases p with ⟨p1, p2⟩
  rcases q with ⟨q1, q2⟩
  cases z with
  | none =>
    simp only [minOptPair]
    cases hb3 : ltPair (q1, q2) (p1, p2) <;> cases hb4 : ltPair (p1, p2) (q1, q2) <;>
      simp only [Bool.false_eq_true, if_false, if_true, Option.some.injEq, Prod.mk.injEq] <;>
      simp only [ltPair_true_iff, ltPair_false_iff] at hb3 hb4 <;>
      omega
  | some r =>
    rcases r with ⟨r1, r2⟩
    simp only [minOptPair]
    cases hb1 : ltPair (p1, p2) (r1, r2) <;>
    cases hb2 : ltPair (q1, q2) (r1, r2) <;>
      (try simp only [Bool.false_eq_true, eq_self_iff_true, if_false, if_true]) <;>
      (try simp only [hb1, hb2]) <;>
      (try simp only [Bool.false_eq_true, eq_self_iff_true, if_false, if_true]) <;>
    cases hb3 : ltPair (q1, q2) (p1, p2) <;>
    cases hb4 : ltPair (p1, p2) (q1, q2) <;>
      (try simp only [hb1, hb2, hb3, hb4]) <;>
      (try simp only [Bool.false_eq_true, eq_self_iff_true, if_false, if_true,
        Option.some.injEq, Prod.mk.injEq]) <;>
      simp only [ltPair_true_iff, ltPair_false_iff] at hb1 hb2 hb3 hb4 <;>
      omega

theorem foldl_minOptPair_perm {l₁ l₂ : List (Int × Int)} (h : l₁.Perm l₂) :
    ∀ acc : Option (Int × Int), l₁.foldl minOptPair acc = l₂.foldl minOptPair acc := by
  induction h with
  | nil => intro acc; rfl
  | cons x _ ih =>
    intro acc
    simp only [List.foldl_cons]
    exact ih _
  | swap x y l =>
    intro acc
    simp only [List.foldl_cons]
    rw [minOptPair_comm]
  | trans _ _ ih1 ih2 =>
    intro acc
    rw [ih1, ih2]

/-- C8 (amended): the (rank, page index) of the record selected for every
(label, target) key is invariant under any permutation of the records — in
particular under permuting records that share a page index. The full selected
record is not invariant: two records on the same page with the same rank can
tie, and the fold keeps whichever comes first (see the counterexample). -/
theorem c8_selection_rank_page_order_invariant :
    ∀ (es₁ es₂ : List Entry), es₁.Perm es₂ →
      ∀ k : String × String,
        (getA (selectBest es₁) k).map rankPage = (getA (selectBest es₂) k).map rankPage := by
  intro es₁ es₂ h k
  rw [getA_selectBest, getA_selectBest, selectForKey, selectForKey,
    foldl_selectKeyStep_rankPage, foldl_selectKeyStep_rankPage]
  exact foldl_minOptPair_perm ((h.filter _).map rankPage) none

/-- C8 counterexample: two records for the same target on the same page with
the same rank but different shifts. Swapping them — a permutation of records
sharing a page index — changes the record the fold selects, refuting "the
record selected is the same regardless of the traversal order within a
page". -/
theorem c8_counterexample :
    ([⟨"L", 0, 5, "T", some "07:00-15:00", none, "x"⟩,
      ⟨"L", 0, 5, "T", some "15:00-23:00", none, "y"⟩] : List Entry).Perm
      [⟨"L", 0, 5, "T", some "15:00-23:00", none, "y"⟩,
       ⟨"L", 0, 5, "T", some "07:00-15:00", none, "x"⟩] ∧
    getA (selectBest [⟨"L", 0, 5, "T", some "07:00-15:00", none, "x"⟩,
        ⟨"L", 0, 5, "T", some "15:00-23:00", none, "y"⟩]) ("L", "T") =
      some ⟨"L", 0, 5, "T", some "07:00-15:00", none, "x"⟩ ∧
    getA (selectBest [⟨"L", 0, 5, "T", some "15:00-23:00", none, "y"⟩,
        ⟨"L", 0, 5, "T", some "07:00-15:00", none, "x"⟩]) ("L", "T") =
      some ⟨"L", 0, 5, "T", some "15:00-23:00", none, "y"⟩ ∧
    (⟨"L", 0, 5, "T", some "07:00-15:00", none, "x"⟩ : Entry) ≠
      ⟨"L", 0, 5, "T", some "15:00-23:00", none, "y"⟩ :=
  ⟨List.Perm.swap _ _ _, by decide, by decide, by decide⟩

theorem c8_witness :
    ([⟨"L", 0, 5, "T", some "07:00-15:00", none, "x"⟩,
      ⟨"L", 0, 5, "T", some "15:00-23:00", none, "y"⟩] : List Entry).Perm
      [⟨"L", 0, 5, "T", some "15:00-23:00", none, "y"⟩,
       ⟨"L", 0, 5, "T", some "07:00-15:00", none, "x"⟩] ∧
    (getA (selectBest [⟨"L", 0, 5, "T", some "07:00-15:00", none, "x"⟩,
        ⟨"L", 0, 5, "T", some "15:00-23:00", none, "y"⟩]) ("L", "T")).map rankPage =
      (getA (selectBest [⟨"L", 0, 5, "T", some "15:00-23:00", none, "y"⟩,
        ⟨"L", 0, 5, "T", some "07:00-15:00", none, "x"⟩]) ("L", "T")).map rankPage :=
  ⟨List.Perm.swap _ _ _,
   c8_selection_rank_page_order_invariant _ _ (List.Perm.swap _ _ _) ("L", "T")⟩

/-! ### Claim C9 — date extraction and normalisation (parser.py)

`DATE_REGEX = \b((\d{4}-\d{2}-\d{2})|(\d{1,2}/\d{1,2}/\d{4}))\b` (parser.py
line 19) is embedded as an explicit matcher over the character list:
left-to-right search for the leftmost position with a word boundary, trying
the dashed alternative first, then the slash alternative, with the greedy,
backtracking `\d{1,2}` pieces expanded into ordered candidate lists. The
relevant inputs are ASCII, so `\w` is modelled as ASCII alphanumeric or
underscore. `_extract_date` and `_normalise_date` (parser.py lines 98-116)
follow, with CPython's `strptime` component patterns
(`%d = 3[01]|[12]\d|0[1-9]|[1-9]`, `%m = 1[0-2]|0[1-9]|[1-9]`,
`%Y = \d\d\d\d`), full-string consumption, `datetime` range validation
(month lengths, leap years, year at least 1), and `%Y-%m-%d` output with
zero-padded month and day. -/

/-- `\w` of the regexes, for the ASCII inputs involved here. -/
def isWordChar (c : Char) : Bool := c.isAlphanum || c = '_'

/-- Exactly `n` digits. -/
def splitDigits : Nat → List Char → Option (List Char × List Char)
  | 0, l => some ([], l)
  | _ + 1, [] => none
  | n + 1, c :: t =>
    if c.isDigit then (splitDigits n t).map (fun dr => (c :: dr.1, dr.2)) else none

/-- A single literal character. -/
def matchChar (ch : Char) : List Char → Option (List Char)
  | [] => none
  | c :: t => if c = ch then some t else none

/-- The candidates of greedy `\d{1,2}`, in backtracking order: two digits
first, then one. -/
def digits12 : List Char → List (List Char × List Char)
  | [] => []
  | [c] => if c.isDigit then [([c], [])] else []
  | c1 :: c2 :: t =>
    if c1.isDigit then
      if c2.isDigit then [([c1, c2], t), ([c1], c2 :: t)]
      else [([c1], c2 :: t)]
    else []

/-- First candidate on which the continuation succeeds (regex backtracking). -/
def firstSome {α β : Type} (f : α → Option β) : List α → Option β
  | [] => none
  | a :: t =>
    match f a with
    | some b => some b
    | none => firstSome f t

/-- The trailing `\b` of `DATE_REGEX`: the token's last character is a digit,
so there is a boundary exactly when the next character is not a word
character (or the input ends). -/
def boundaryAfter : List Char → Bool
  | [] => true
  | c :: _ => ¬ isWordChar c

/-- The `\d{4}-\d{2}-\d{2}` alternative of `DATE_REGEX`, with its trailing
`\b`. -/
def tryDashDate (l : List Char) : Option (List Char) :=
  match splitDigits 4 l with
  | none => none
  | some (y, r1) =>
    match matchChar '-' r1 with
    | none => none
    | some r2 =>
      match splitDigits 2 r2 with
      | none => none
      | some (m, r3) =>
        match matchChar '-' r3 with
        | none => none
        | some r4 =>
          match splitDigits 2 r4 with
          | none => none
          | some (d, r5) =>
            if boundaryAfter r5 then some (y ++ '-' :: m ++ '-' :: d) else none

/-- The `\d{1,2}/\d{1,2}/\d{4}` alternative of `DATE_REGEX`, with its trailing
`\b`; the two `\d{1,2}` pieces backtrack greedily. -/
def trySlashDate (l : List Char) : Option (List Char) :=
  firstSome
    (fun dr =>
      match matchChar '/' dr.2 with
      | none => none
      | some r2 =>
        firstSome
          (fun mr =>
            match matchChar '/' mr.2 with
            | none => none
            | some r4 =>
              match splitDigits 4 r4 with
              | none => none
              | some (y, r5) =>
                if boundaryAfter r5 then some (dr.1 ++ '/' :: mr.1 ++ '/' :: y) else none)
          (digits12 r2))
    (digits12 l)

/-- One attempt of `DATE_REGEX` at a fixed position: the dashed alternative
is tried before the slash alternative, as in the pattern. -/
def matchAtPos (l : List Char) : Option (List Char) :=
  match tryDashDate l with
  | some m => some m
  | none => trySlashDate l

/-- `DATE_REGEX.search`: leftmost match wins; at each position the pattern
starts with a digit (a word character), so the leading `\b` holds exactly when
the previous character is absent or not a word character. -/
def dateSearchAux : Option Char → List Char → Option (List Char)
  | _, [] => none
  | prev, c :: t =>
    let boundary : Bool :=
      match prev with
      | none => true
      | some pc => ¬ isWordChar pc
    match (if boundary then matchAtPos (c :: t) else none) with
    | some m => some m
    | none => dateSearchAux (some c) t

/-- `DATE_REGEX.search(line)` returning `match.group(1)`. -/
def dateRegexSearch (s : String) : Option String :=
  (dateSearchAux none s.data).map (fun cs => String.mk cs)

/-- CPython's `strptime` component for `%d`: `(3[01]|[12]\d|0[1-9]|[1-9])`,
alternatives in order, value and rest for each. -/
def dayAlts : List Char → List (Nat × List Char)
  | [] => []
  | [c1] => if '1' ≤ c1 ∧ c1 ≤ '9' then [(c1.toNat - '0'.toNat, [])] else []
  | c1 :: c2 :: t =>
    (if c1 = '3' ∧ (c2 = '0' ∨ c2 = '1') then [(30 + (c2.toNat - '0'.toNat), t)]
     else if (c1 = '1' ∨ c1 = '2') ∧ c2.isDigit then
       [((c1.toNat - '0'.toNat) * 10 + (c2.toNat - '0'.toNat), t)]
     else if c1 = '0' ∧ ('1' ≤ c2 ∧ c2 ≤ '9') then [(c2.toNat - '0'.toNat, t)]
     else []) ++
    (if '1' ≤ c1 ∧ c1 ≤ '9' then [(c1.toNat - '0'.toNat, c2 :: t)] else [])

/-- CPython's `strptime` component for `%m`: `(1[0-2]|0[1-9]|[1-9])`. -/
def monthAlts : List Char → List (Nat × List Char)
  | [] => []
  | [c1] => if '1' ≤ c1 ∧ c1 ≤ '9' then [(c1.toNat - '0'.toNat, [])] else []
  | c1 :: c2 :: t =>
    (if c1 = '1' ∧ ('0' ≤ c2 ∧ c2 ≤ '2') then [(10 + (c2.toNat - '0'.toNat), t)]
     else if c1 = '0' ∧ ('1' ≤ c2 ∧ c2 ≤ '9') then [(c2.toNat - '0'.toNat, t)]
     else []) ++
    (if '1' ≤ c1 ∧ c1 ≤ '9' then [(c1.toNat - '0'.toNat, c2 :: t)] else [])

/-- CPython's `strptime` component for `%Y`: exactly four digits. -/
def year4 (l : List Char) : Option (Nat × List Char) :=
  match splitDigits 4 l with
  | none => none
  | some (ds, r) => some (ds.foldl (fun acc c => acc * 10 + (c.toNat - '0'.toNat)) 0, r)

/-- Gregorian leap year, as `datetime` validates it. -/
def isLeapYear (y : Nat) : Bool := y % 4 = 0 ∧ (y % 100 ≠ 0 ∨ y % 400 = 0)

/-- Days in a month, as `datetime` validates it. -/
def daysInMonth (y m : Nat) : Nat :=
  if m = 2 then (if isLeapYear y then 29 else 28)
  else if m = 4 ∨ m = 6 ∨ m = 9 ∨ m = 11 then 30
  else 31

/-- The `datetime(year, month, day)` range check (`MINYEAR = 1`). -/
def validDate (y m d : Nat) : Bool :=
  1 ≤ y ∧ 1 ≤ m ∧ m ≤ 12 ∧ 1 ≤ d ∧ d ≤ daysInMonth y m

/-- `datetime.strptime(value, "%d/%m/%Y")`: match the whole string against
`%d`, `/`, `%m`, `/`, `%Y` with backtracking, then validate the date;
`none` models the `ValueError`. Returns (year, month, day). -/
def strptimeDMY (value : String) : Option (Nat × Nat × Nat) :=
  match firstSome
      (fun dr =>
        match matchChar '/' dr.2 with
        | none => none
        | some r2 =>
          firstSome
            (fun mr =>
              match matchChar '/' mr.2 with
              | none => none
              | some r4 =>
                match year4 r4 with
                | none => none
                | some (y, r5) =>
                  match r5 with
                  | [] => some (dr.1, mr.1, y)
                  | _ :: _ => none)
            (monthAlts r2))
      (dayAlts value.data) with
  | none => none
  | some (d, m, y) => if validDate y m d then some (y, m, d) else none

/-- `datetime.strptime(value, "%Y/%m/%d")`, the fallback branch of
`_normalise_date`. -/
def strptimeYMD (value : String) : Option (Nat × Nat × Nat) :=
  match year4 value.data with
  | none => none
  | some (y, r1) =>
    match matchChar '/' r1 with
    | none => none
    | some r2 =>
      match firstSome
          (fun mr =>
            match matchChar '/' mr.2 with
            | none => none
            | some r4 =>
              firstSome
                (fun dr =>
                  match dr.2 with
                  | [] => some (mr.1, dr.1)
                  | _ :: _ => none)
                (dayAlts r4))
          (monthAlts r2) with
      | none => none
      | some (m, d) => if validDate y m d then some (y, m, d) else none

/-- Two-digit zero padding (`%m`, `%d` of `strftime`). -/
def pad2 (n : Nat) : String := if n < 10 then "0" ++ toString n else toString n

/-- `strftime("%Y-%m-%d")` (the year rendered without padding, as glibc's
`%Y` does; every year reached through `DATE_REGEX` has four digits). -/
def formatYMD (y m d : Nat) : String := toString y ++ "-" ++ pad2 m ++ "-" ++ pad2 d

/-- `_normalise_date` (parser.py lines 108-116): try `%d/%m/%Y`, then
`%Y/%m/%d`, and fall back to the unmodified value. -/
def normalise_date (value : String) : String :=
  match strptimeDMY value with
  | some (y, m, d) => formatYMD y m d
  | none =>
    match strptimeYMD value with
    | some (y, m, d) => formatYMD y m d
    | none => value

/-- `_extract_date` (parser.py lines 98-105): search the line with
`DATE_REGEX`; a match containing a dash (the `YYYY-MM-DD` alternative) is
returned as is, otherwise the slash token is normalised. -/
def extract_date (line : String) : Option String :=
  match dateRegexSearch line with
  | none => none
  | some value => if value.data.contains '-' then some value else some (normalise_date value)

/-- C9 counterexample: a line containing the year/month/day slash token
`2024/05/03` yields no date at all — `DATE_REGEX`'s slash alternative
requires a 1-2 digit first component, so the token is not matched, let alone
normalised to `2024-05-03` as the claim states. -/
theorem c9_counterexample :
    extract_date "le 2024/05/03" = none ∧
    extract_date "le 2024/05/03" ≠ some "2024-05-03" := by
  refine ⟨rfl, ?_⟩
  intro h
  cases h.symm.trans (rfl : extract_date "le 2024/05/03" = none)


/-- The two shapes a `\d{1,2}` day or month part of the slash alternative can
take: one digit or two digits. -/
def dayShape (dp : List Char) : Prop :=
  (∃ a, dp = [a] ∧ a.isDigit = true) ∨
  (∃ a b, dp = [a, b] ∧ a.isDigit = true ∧ b.isDigit = true)

/-- A day or month number rendered as two zero-padded digit characters. -/
def render2 (n : Nat) : List Char := [Char.ofNat (48 + n / 10), Char.ofNat (48 + n % 10)]

theorem isDigit_isWordChar {c : Char} (h : c.isDigit = true) : isWordChar c = true := by
  simp [isWordChar, Char.isAlphanum, h]

theorem digit_ne_slash {c : Char} (h : c.isDigit = true) : ¬ c = '/' := by
  intro heq
  rw [heq] at h
  exact absurd h (by decide)

theorem digit_ne_dash {c : Char} (h : c.isDigit = true) : ¬ c = '-' := by
  intro heq
  rw [heq] at h
  exact absurd h (by decide)

theorem firstSome_some {α β : Type} {f : α → Option β} :
    ∀ {xs : List α} {b : β}, firstSome f xs = some b → ∃ x, x ∈ xs ∧ f x = some b := by
  intro xs
  induction xs with
  | nil => intro b h; cases h
  | cons a t ih =>
    intro b h
    simp only [firstSome] at h
    cases hf : f a with
    | some b' =>
      rw [hf] at h
      exact ⟨a, List.mem_cons_self a t, hf.trans h⟩
    | none =>
      rw [hf] at h
      rcases ih h with ⟨x, hx, hfx⟩
      exact ⟨x, List.mem_cons_of_mem a hx, hfx⟩

theorem digits12_mem {l : List Char} {dr : List Char × List Char} (h : dr ∈ digits12 l) :
    (∃ a, dr.1 = [a] ∧ a.isDigit = true) ∨
    (∃ a b, dr.1 = [a, b] ∧ a.isDigit = true ∧ b.isDigit = true) := by
  match l with
  | [] => cases h
  | [c] =>
    by_cases hc : c.isDigit = true
    · simp only [digits12, hc, if_true, List.mem_singleton] at h
      exact .inl ⟨c, by rw [h], hc⟩
    · simp only [digits12, hc, if_false] at h
      cases h
  | c1 :: c2 :: t =>
    by_cases h1 : c1.isDigit = true
    · by_cases h2 : c2.isDigit = true
      · simp only [digits12, h1, h2, if_true, List.mem_cons, List.mem_singleton] at h
        rcases h with h | h | h
        · exact .inr ⟨c1, c2, by rw [h], h1, h2⟩
        · exact .inl ⟨c1, by rw [h], h1⟩
        · cases h
      · simp only [digits12, h1, h2, if_true, Bool.false_eq_true, if_false,
          List.mem_singleton] at h
        exact .inl ⟨c1, by rw [h], h1⟩
    · simp only [digits12, h1, if_false] at h
      cases h

theorem trySlashDate_shape {l cs : List Char} (h : trySlashDate l = some cs) :
    (∃ a rest, cs = a :: '/' :: rest ∧ a.isDigit = true) ∨
    (∃ a b rest, cs = a :: b :: '/' :: rest ∧ a.isDigit = true ∧ b.isDigit = true) := by
  rcases firstSome_some h with ⟨dr, hdr, hf⟩
  cases hm : matchChar '/' dr.2 with
  | none => rw [hm] at hf; cases hf
  | some r2 =>
    rw [hm] at hf
    simp only at hf
    rcases firstSome_some hf with ⟨mr, _hmr, hg⟩
    cases hm2 : matchChar '/' mr.2 with
    | none => rw [hm2] at hg; cases hg
    | some r4 =>
      rw [hm2] at hg
      simp only at hg
      cases hs : splitDigits 4 r4 with
      | none => rw [hs] at hg; cases hg
      | some yr =>
        rcases yr with ⟨y, r5⟩
        rw [hs] at hg
        simp only at hg
        by_cases hb : boundaryAfter r5 = true
        · rw [if_pos hb] at hg
          have hcs : dr.1 ++ '/' :: mr.1 ++ '/' :: y = cs := by injection hg
          rcases digits12_mem hdr with ⟨a, h1, ha⟩ | ⟨a, b, h1, ha, hb2⟩
          · left
            exact ⟨a, mr.1 ++ '/' :: y, by rw [← hcs, h1]; rfl, ha⟩
          · right
            exact ⟨a, b, mr.1 ++ '/' :: y, by rw [← hcs, h1]; rfl, ha, hb2⟩
        · rw [if_neg hb] at hg
          cases hg

theorem tryDashDate_mem_dash {l cs : List Char} (h : tryDashDate l = some cs) : '-' ∈ cs := by
  unfold tryDashDate at h
  cases h1 : splitDigits 4 l with
  | none => rw [h1] at h; cases h
  | some yr1 =>
    rcases yr1 with ⟨y, r1⟩
    rw [h1] at h
    simp only at h
    cases h2 : matchChar '-' r1 with
    | none => rw [h2] at h; cases h
    | some r2 =>
      rw [h2] at h
      simp only at h
      cases h3 : splitDigits 2 r2 with
      | none => rw [h3] at h; cases h
      | some mr3 =>
        rcases mr3 with ⟨m, r3⟩
        rw [h3] at h
        simp only at h
        cases h4 : matchChar '-' r3 with
        | none => rw [h4] at h; cases h
        | some r4 =>
          rw [h4] at h
          simp only at h
          cases h5 : splitDigits 2 r4 with
          | none => rw [h5] at h; cases h
          | some dr5 =>
            rcases dr5 with ⟨d, r5⟩
            rw [h5] at h
            simp only at h
            by_cases hb : boundaryAfter r5 = true
            · rw [if_pos hb] at h
              have hcs : y ++ '-' :: m ++ '-' :: d = cs := by injection h
              rw [← hcs]
              exact List.mem_append.mpr (.inr (List.mem_cons_self _ _))
            · rw [if_neg hb] at h
              cases h

theorem matchAtPos_cases {x cs : List Char} (h : matchAtPos x = some cs) :
    tryDashDate x = some cs ∨ trySlashDate x = some cs := by
  unfold matchAtPos at h
  cases htd : tryDashDate x with
  | some m =>
    rw [htd] at h
    simp only at h
    exact .inl h
  | none =>
    rw [htd] at h
    simp only at h
    exact .inr h

theorem dateSearchAux_from_matchers :
    ∀ (l : List Char) (prev : Option Char) (cs : List Char),
      dateSearchAux prev l = some cs →
      ∃ l', tryDashDate l' = some cs ∨ trySlashDate l' = some cs := by
  intro l
  induction l with
  | nil => intro prev cs h; cases h
  | cons c t ih =>
    intro prev cs h
    simp only [dateSearchAux] at h
    cases prev with
    | none =>
      simp only [if_true] at h
      cases hp : matchAtPos (c :: t) with
      | some m =>
        rw [hp] at h
        exact ⟨c :: t, matchAtPos_cases (hp.trans h)⟩
      | none =>
        rw [hp] at h
        exact ih (some c) cs h
    | some pc =>
      by_cases hw : isWordChar pc = true
      · simp only [hw, Bool.not_true, Bool.false_eq_true, if_false] at h
        exact ih (some c) cs h
      · have hw' : isWordChar pc = false := by
          cases hb : isWordChar pc
          · rfl
          · exact absurd hb hw
        simp only [hw', Bool.not_false, if_true] at h
        cases hp : matchAtPos (c :: t) with
        | some m =>
          rw [hp] at h
          exact ⟨c :: t, matchAtPos_cases (hp.trans h)⟩
        | none =>
          rw [hp] at h
          exact ih (some c) cs h

theorem slashShape_strptimeYMD_none {cs : List Char}
    (h : (∃ a rest, cs = a :: '/' :: rest ∧ a.isDigit = true) ∨
         (∃ a b rest, cs = a :: b :: '/' :: rest ∧ a.isDigit = true ∧ b.isDigit = true)) :
    strptimeYMD (String.mk cs) = none := by
  rcases h with ⟨a, rest, rfl, ha⟩ | ⟨a, b, rest, rfl, ha, hb⟩
  · simp [strptimeYMD, year4, splitDigits, ha, (show ('/').isDigit = false from rfl)]
  · simp [strptimeYMD, year4, splitDigits, ha, hb, (show ('/').isDigit = false from rfl)]

theorem dateRegexSearch_no_dash_strptimeYMD_none (line value : String)
    (h : dateRegexSearch line = some value) (hdash : value.data.contains '-' = false) :
    strptimeYMD value = none := by
  unfold dateRegexSearch at h
  cases hs : dateSearchAux none line.data with
  | none => rw [hs] at h; cases h
  | some cs =>
    rw [hs] at h
    simp only [Option.map_some'] at h
    have hv : String.mk cs = value := by injection h
    rcases dateSearchAux_from_matchers line.data none cs hs with ⟨l', hcase⟩
    rcases hcase with hd | hsl
    · exfalso
      have hmem : '-' ∈ cs := tryDashDate_mem_dash hd
      have hmem' : '-' ∈ value.data := by rw [← hv]; exact hmem
      rw [← List.elem_iff] at hmem'
      have hc : value.data.contains '-' = true := hmem'
      rw [hc] at hdash
      cases hdash
    · rw [← hv]
      exact slashShape_strptimeYMD_none (trySlashDate_shape hsl)

theorem slashToken_search (dp mp : List Char) (c1 c2 c3 c4 : Char)
    (hdp : dayShape dp) (hmp : dayShape mp)
    (h1 : c1.isDigit = true) (h2 : c2.isDigit = true)
    (h3 : c3.isDigit = true) (h4 : c4.isDigit = true) :
    dateSearchAux none (dp ++ '/' :: mp ++ '/' :: [c1, c2, c3, c4]) =
      some (dp ++ '/' :: mp ++ '/' :: [c1, c2, c3, c4]) := by
  have hs : ('/').isDigit = false := rfl
  rcases hdp with ⟨a, rfl, ha⟩ | ⟨a, b, rfl, ha, hb⟩
  · rcases hmp with ⟨m, rfl, hm⟩ | ⟨m, n, rfl, hm, hn⟩
    · simp [dateSearchAux, matchAtPos, tryDashDate, trySlashDate, digits12, splitDigits,
        matchChar, boundaryAfter, firstSome, ha, hm, h1, h2, h3, h4, hs]
    · simp [dateSearchAux, matchAtPos, tryDashDate, trySlashDate, digits12, splitDigits,
        matchChar, boundaryAfter, firstSome, ha, hm, hn, h1, h2, h3, h4, hs]
  · rcases hmp with ⟨m, rfl, hm⟩ | ⟨m, n, rfl, hm, hn⟩
    · simp [dateSearchAux, matchAtPos, tryDashDate, trySlashDate, digits12, splitDigits,
        matchChar, boundaryAfter, firstSome, ha, hb, hm, h1, h2, h3, h4, hs]
    · simp [dateSearchAux, matchAtPos, tryDashDate, trySlashDate, digits12, splitDigits,
        matchChar, boundaryAfter, firstSome, ha, hb, hm, hn, h1, h2, h3, h4, hs]

theorem slashToken_no_dash (dp mp : List Char) (c1 c2 c3 c4 : Char)
    (hdp : dayShape dp) (hmp : dayShape mp)
    (h1 : c1.isDigit = true) (h2 : c2.isDigit = true)
    (h3 : c3.isDigit = true) (h4 : c4.isDigit = true) :
    (dp ++ '/' :: mp ++ '/' :: [c1, c2, c3, c4]).contains '-' = false := by
  have hsd : (('/' : Char) == '-') = false := rfl
  rcases hdp with ⟨a, rfl, ha⟩ | ⟨a, b, rfl, ha, hb⟩
  · rcases hmp with ⟨m, rfl, hm⟩ | ⟨m, n, rfl, hm, hn⟩
    · simp [List.contains_cons, hsd, beq_eq_false_iff_ne, Ne.symm (digit_ne_dash ha),
        Ne.symm (digit_ne_dash hm), Ne.symm (digit_ne_dash h1), Ne.symm (digit_ne_dash h2),
        Ne.symm (digit_ne_dash h3), Ne.symm (digit_ne_dash h4)]
    · simp [List.contains_cons, hsd, beq_eq_false_iff_ne, Ne.symm (digit_ne_dash ha),
        Ne.symm (digit_ne_dash hm), Ne.symm (digit_ne_dash hn), Ne.symm (digit_ne_dash h1),
        Ne.symm (digit_ne_dash h2), Ne.symm (digit_ne_dash h3), Ne.symm (digit_ne_dash h4)]
  · rcases hmp with ⟨m, rfl, hm⟩ | ⟨m, n, rfl, hm, hn⟩
    · simp [List.contains_cons, hsd, beq_eq_false_iff_ne, Ne.symm (digit_ne_dash ha),
        Ne.symm (digit_ne_dash hb), Ne.symm (digit_ne_dash hm), Ne.symm (digit_ne_dash h1),
        Ne.symm (digit_ne_dash h2), Ne.symm (digit_ne_dash h3), Ne.symm (digit_ne_dash h4)]
    · simp [List.contains_cons, hsd, beq_eq_false_iff_ne, Ne.symm (digit_ne_dash ha),
        Ne.symm (digit_ne_dash hb), Ne.symm (digit_ne_dash hm), Ne.symm (digit_ne_dash hn),
        Ne.symm (digit_ne_dash h1), Ne.symm (digit_ne_dash h2), Ne.symm (digit_ne_dash h3),
        Ne.symm (digit_ne_dash h4)]

theorem slashToken_extract (dp mp : List Char) (c1 c2 c3 c4 : Char)
    (hdp : dayShape dp) (hmp : dayShape mp)
    (h1 : c1.isDigit = true) (h2 : c2.isDigit = true)
    (h3 : c3.isDigit = true) (h4 : c4.isDigit = true) :
    extract_date (String.mk (dp ++ '/' :: mp ++ '/' :: [c1, c2, c3, c4])) =
      some (normalise_date (String.mk (dp ++ '/' :: mp ++ '/' :: [c1, c2, c3, c4]))) := by
  unfold extract_date dateRegexSearch
  rw [show (String.mk (dp ++ '/' :: mp ++ '/' :: [c1, c2, c3, c4])).data =
      dp ++ '/' :: mp ++ '/' :: [c1, c2, c3, c4] from rfl,
    slashToken_search dp mp c1 c2 c3 c4 hdp hmp h1 h2 h3 h4]
  simp only [Option.map_some']
  have hnd := slashToken_no_dash dp mp c1 c2 c3 c4 hdp hmp h1 h2 h3 h4
  rw [if_neg (by rw [hnd]; exact Bool.false_ne_true)]

theorem slashToken_shape (dp mp : List Char) (c1 c2 c3 c4 : Char)
    (hdp : dayShape dp) :
    (∃ a rest, (dp ++ '/' :: mp ++ '/' :: [c1, c2, c3, c4]) = a :: '/' :: rest ∧
      a.isDigit = true) ∨
    (∃ a b rest, (dp ++ '/' :: mp ++ '/' :: [c1, c2, c3, c4]) = a :: b :: '/' :: rest ∧
      a.isDigit = true ∧ b.isDigit = true) := by
  rcases hdp with ⟨a, rfl, ha⟩ | ⟨a, b, rfl, ha, hb⟩
  · exact .inl ⟨a, mp ++ '/' :: [c1, c2, c3, c4], rfl, ha⟩
  · exact .inr ⟨a, b, mp ++ '/' :: [c1, c2, c3, c4], rfl, ha, hb⟩

theorem dashedToken_extract (c1 c2 c3 c4 a1 a2 b1 b2 : Char)
    (h1 : c1.isDigit = true) (h2 : c2.isDigit = true)
    (h3 : c3.isDigit = true) (h4 : c4.isDigit = true)
    (h5 : a1.isDigit = true) (h6 : a2.isDigit = true)
    (h7 : b1.isDigit = true) (h8 : b2.isDigit = true) :
    extract_date (String.mk [c1, c2, c3, c4, '-', a1, a2, '-', b1, b2]) =
      some (String.mk [c1, c2, c3, c4, '-', a1, a2, '-', b1, b2]) := by
  simp [extract_date, dateRegexSearch, dateSearchAux, matchAtPos, tryDashDate, splitDigits,
    matchChar, boundaryAfter, h1, h2, h3, h4, h5, h6, h7, h8,
    (show (('-' : Char) = '/') = False by simp), List.contains_cons]

theorem ymdToken_extract_none (c1 c2 c3 c4 m1 m2 d1 d2 : Char)
    (h1 : c1.isDigit = true) (h2 : c2.isDigit = true)
    (h3 : c3.isDigit = true) (h4 : c4.isDigit = true)
    (h5 : m1.isDigit = true) (h6 : m2.isDigit = true)
    (h7 : d1.isDigit = true) (h8 : d2.isDigit = true) :
    extract_date (String.mk [c1, c2, c3, c4, '/', m1, m2, '/', d1, d2]) = none := by
  simp [extract_date, dateRegexSearch, dateSearchAux, matchAtPos, tryDashDate, trySlashDate,
    digits12, splitDigits, matchChar, boundaryAfter, firstSome,
    h1, h2, h3, h4, h5, h6, h7, h8,
    isDigit_isWordChar h1, isDigit_isWordChar h2, isDigit_isWordChar h3,
    isDigit_isWordChar h4, isDigit_isWordChar h5, isDigit_isWordChar h6,
    isDigit_isWordChar h7, isDigit_isWordChar h8,
    digit_ne_slash h1, digit_ne_slash h2, digit_ne_slash h3, digit_ne_slash h4,
    digit_ne_slash h5, digit_ne_slash h6, digit_ne_slash h7, digit_ne_slash h8,
    digit_ne_dash h1, digit_ne_dash h2, digit_ne_dash h3, digit_ne_dash h4,
    digit_ne_dash h5, digit_ne_dash h6, digit_ne_dash h7, digit_ne_dash h8,
    (show ('/').isDigit = false from rfl), (show isWordChar '/' = false from rfl)]

set_option maxRecDepth 10000 in
theorem render2_extract_2024 : ∀ d : Nat, d < 32 → ∀ m : Nat, m < 13 → 1 ≤ d → 1 ≤ m →
    d ≤ daysInMonth 2024 m →
    extract_date (String.mk (render2 d ++ '/' :: render2 m ++ '/' :: ['2', '0', '2', '4'])) =
      some (formatYMD 2024 m d) :=
  @of_decide_eq_true _ (Nat.decidableBallLT 32 _) (by rfl)

/-- C9 (amended): universally over the token space of `DATE_REGEX` —
(1) every slash token (any one-or-two-digit day part, any one-or-two-digit
month part, any four digit characters of year) that `strptime("%d/%m/%Y")`
parses is normalised to `YYYY-MM-DD`; (2) in particular, every calendar-valid
day/month of the year 2024 in zero-padded rendering is so normalised;
(3) every slash token that `strptime("%d/%m/%Y")` rejects is passed through
unnormalised rather than discarded; (4) every dashed `\d{4}-\d{2}-\d{2}`
token is passed through as is; (5) every year/month/day slash token
(four-digit first component) is not matched by the date regex and yields no
date; and (6) for every line, a regex match without a dash can never parse
under the `%Y/%m/%d` fallback — that branch of `_normalise_date` is
unreachable for matched tokens. -/
theorem c9_date_normalisation :
    (∀ (dp mp : List Char) (c1 c2 c3 c4 : Char),
      dayShape dp → dayShape mp →
      c1.isDigit = true → c2.isDigit = true → c3.isDigit = true → c4.isDigit = true →
      ∀ y m d : Nat,
        strptimeDMY (String.mk (dp ++ '/' :: mp ++ '/' :: [c1, c2, c3, c4])) = some (y, m, d) →
        extract_date (String.mk (dp ++ '/' :: mp ++ '/' :: [c1, c2, c3, c4])) =
          some (formatYMD y m d)) ∧
    (∀ d : Nat, d < 32 → ∀ m : Nat, m < 13 → 1 ≤ d → 1 ≤ m → d ≤ daysInMonth 2024 m →
      extract_date (String.mk (render2 d ++ '/' :: render2 m ++ '/' :: ['2', '0', '2', '4'])) =
        some (formatYMD 2024 m d)) ∧
    (∀ (dp mp : List Char) (c1 c2 c3 c4 : Char),
      dayShape dp → dayShape mp →
      c1.isDigit = true → c2.isDigit = true → c3.isDigit = true → c4.isDigit = true →
      strptimeDMY (String.mk (dp ++ '/' :: mp ++ '/' :: [c1, c2, c3, c4])) = none →
      extract_date (String.mk (dp ++ '/' :: mp ++ '/' :: [c1, c2, c3, c4])) =
        some (String.mk (dp ++ '/' :: mp ++ '/' :: [c1, c2, c3, c4]))) ∧
    (∀ c1 c2 c3 c4 a1 a2 b1 b2 : Char,
      c1.isDigit = true → c2.isDigit = true → c3.isDigit = true → c4.isDigit = true →
      a1.isDigit = true → a2.isDigit = true → b1.isDigit = true → b2.isDigit = true →
      extract_date (String.mk [c1, c2, c3, c4, '-', a1, a2, '-', b1, b2]) =
        some (String.mk [c1, c2, c3, c4, '-', a1, a2, '-', b1, b2])) ∧
    (∀ c1 c2 c3 c4 m1 m2 d1 d2 : Char,
      c1.isDigit = true → c2.isDigit = true → c3.isDigit = true → c4.isDigit = true →
      m1.isDigit = true → m2.isDigit = true → d1.isDigit = true → d2.isDigit = true →
      extract_date (String.mk [c1, c2, c3, c4, '/', m1, m2, '/', d1, d2]) = none) ∧
    (∀ (line value : String), dateRegexSearch line = some value →
      value.data.contains '-' = false → strptimeYMD value = none) := by
  refine ⟨?_, render2_extract_2024, ?_, dashedToken_extract, ymdToken_extract_none,
    dateRegexSearch_no_dash_strptimeYMD_none⟩
  · intro dp mp c1 c2 c3 c4 hdp hmp h1 h2 h3 h4 y m d hDMY
    rw [slashToken_extract dp mp c1 c2 c3 c4 hdp hmp h1 h2 h3 h4]
    simp only [normalise_date, hDMY]
  · intro dp mp c1 c2 c3 c4 hdp hmp h1 h2 h3 h4 hDMY
    rw [slashToken_extract dp mp c1 c2 c3 c4 hdp hmp h1 h2 h3 h4]
    have hymd := slashShape_strptimeYMD_none (slashToken_shape dp mp c1 c2 c3 c4 hdp)
    simp only [normalise_date, hDMY, hymd]

theorem c9_witness :
    dayShape ['0', '3'] ∧
    strptimeDMY (String.mk (['0', '3'] ++ '/' :: ['0', '5'] ++ '/' :: ['2', '0', '2', '4'])) =
      some (2024, 5, 3) ∧
    extract_date (String.mk (['0', '3'] ++ '/' :: ['0', '5'] ++ '/' :: ['2', '0', '2', '4'])) =
      some (formatYMD 2024 5 3) ∧
    extract_date (String.mk (render2 3 ++ '/' :: render2 5 ++ '/' :: ['2', '0', '2', '4'])) =
      some (formatYMD 2024 5 3) ∧
    strptimeDMY (String.mk (['9', '9'] ++ '/' :: ['9', '9'] ++ '/' :: ['2', '0', '2', '4'])) =
      none ∧
    extract_date (String.mk (['9', '9'] ++ '/' :: ['9', '9'] ++ '/' :: ['2', '0', '2', '4'])) =
      some (String.mk (['9', '9'] ++ '/' :: ['9', '9'] ++ '/' :: ['2', '0', '2', '4'])) ∧
    extract_date (String.mk ['2', '0', '2', '4', '-', '0', '5', '-', '0', '3']) =
      some (String.mk ['2', '0', '2', '4', '-', '0', '5', '-', '0', '3']) ∧
    extract_date (String.mk ['2', '0', '2', '4', '/', '0', '5', '/', '0', '3']) = none ∧
    dateRegexSearch "99/99/2024" = some "99/99/2024" ∧
    ("99/99/2024" : String).data.contains '-' = false ∧
    strptimeYMD "99/99/2024" = none :=
  ⟨.inr ⟨'0', '3', rfl, rfl, rfl⟩,
   by decide,
   c9_date_normalisation.1 ['0', '3'] ['0', '5'] '2' '0' '2' '4'
     (.inr ⟨'0', '3', rfl, rfl, rfl⟩) (.inr ⟨'0', '5', rfl, rfl, rfl⟩) rfl rfl rfl rfl
     2024 5 3 (by decide),
   c9_date_normalisation.2.1 3 (by decide) 5 (by decide) (by decide) (by decide) (by decide),
   by decide,
   c9_date_normalisation.2.2.1 ['9', '9'] ['9', '9'] '2' '0' '2' '4'
     (.inr ⟨'9', '9', rfl, rfl, rfl⟩) (.inr ⟨'9', '9', rfl, rfl, rfl⟩) rfl rfl rfl rfl
     (by decide),
   c9_date_normalisation.2.2.2.1 '2' '0' '2' '4' '0' '5' '0' '3'
     rfl rfl rfl rfl rfl rfl rfl rfl,
   c9_date_normalisation.2.2.2.2.1 '2' '0' '2' '4' '0' '5' '0' '3'
     rfl rfl rfl rfl rfl rfl rfl rfl,
   by decide,
   by decide,
   c9_date_normalisation.2.2.2.2.2 "99/99/2024" "99/99/2024" (by decide) (by decide)⟩
